import Mathlib

/-!
Verification development for the bettercppsax streaming SAX-parsing engine
(src/bettercppsax.h).  The C++ header is shallowly embedded: the token
vocabulary, the ParseResult protocol, the combinator continuations
(ParseString, ParseBool, ParseNumber, SkipNextElement, ParseObject,
core::ParseList) and the stack dispatcher (SaxParser::inner_parser::ParseToken,
ParseJSON, ParseJson) become executable Lean definitions, and the behavioural
claims about them are settled as theorems.

Modelling conventions:
* C++ closures with mutable captured state become continuation values that
  return an updated copy of themselves at every step (the dispatcher keeps the
  updated value in place, mirroring in-place mutation of the stored
  std::function object).
* int64_t payloads become Int, uint64_t payloads become Nat; where C++
  performs a converted (modular) comparison or cast, the conversion is written
  out explicitly.
* double payloads become exact rationals.  Every finite double is a rational
  and C++ comparisons of finite doubles agree with the rational order, so the
  branch logic of ParseNumber is captured exactly for finite payloads.  No
  claim depends on NaN or infinity behaviour.
* References captured by combinator lambdas become explicit targets: either an
  address into the caller-owned heap (capture by reference, as in ParseString,
  ParseBool, ParseNumber and core::ParseList), or a path into the object value
  held by the continuation directly beneath on the parser stack (the pointer
  into the enclosing ParseObject lambda that captured its object by value).
-/

/-- All token types of the underlying SAX reader (enum class JSONTokenType). -/
inductive JSONTokenType where
  | null
  | boolean
  | number_integer
  | number_unsigned
  | number_float
  | string
  | start_object
  | end_object
  | start_array
  | end_array
  | key
  | parse_error
deriving DecidableEq

/-- A token together with its payload (struct JSONToken with its json_val).
The inner_parser callbacks (Null, Bool, Int64, UInt64, Double, String,
StartObject, EndObject, StartArray, EndArray, Key) are the only producers of
tokens in the program and they always pair each token type with the payload
variant shown here, so type and payload are merged into one inductive. -/
inductive JSONToken where
  | null
  | boolean (b : Bool)
  | number_integer (i : Int)
  | number_unsigned (u : Nat)
  | number_float (q : ℚ)
  | string (s : String)
  | start_object
  | end_object
  | start_array
  | end_array
  | key (s : String)
  | parse_error
deriving DecidableEq

/-- The token.type field used by the combinators for dispatch. -/
def JSONToken.type : JSONToken → JSONTokenType
  | .null => .null
  | .boolean _ => .boolean
  | .number_integer _ => .number_integer
  | .number_unsigned _ => .number_unsigned
  | .number_float _ => .number_float
  | .string _ => .string
  | .start_object => .start_object
  | .end_object => .end_object
  | .start_array => .start_array
  | .end_array => .end_array
  | .key _ => .key
  | .parse_error => .parse_error

/-- enum class ParseResultType. -/
inductive ParseResultType where
  | KeepParsing
  | ParserDone
  | NewParser
  | NewParser_ReplayCurrent
  | Error
deriving DecidableEq

/-- One step of a field path inside a caller-supplied target structure:
selecting a named member of a struct, or an element of a growable sequence. -/
inductive PathElem where
  | fld (s : String)
  | idx (n : Nat)
deriving DecidableEq

/-- A value stored in a caller-supplied target: the scalar types the
combinators write (std::string, bool, integral, floating modelled as an exact
rational), plus structs (named fields) and growable sequences, which are what
ParseObject and ParseList populate. -/
inductive Val where
  | vstr (s : String)
  | vbool (b : Bool)
  | vint (i : Int)
  | vrat (q : ℚ)
  | vlist (items : List Val)
  | vobj (fields : List (String × Val))

/-- The concrete numeric target types T that ParseNumber is instantiated at
(the Numeric concept: any standard signed, unsigned or floating type). -/
inductive NumTy where
  | i8 | i16 | i32 | i64 | u8 | u16 | u32 | u64 | f32 | f64
deriving DecidableEq

/-- std::is_integral_v for the modelled target types. -/
def NumTy.isIntegral : NumTy → Bool
  | .f32 | .f64 => false
  | _ => true

/-- Whether the target type is a signed integer type. -/
def NumTy.isSigned : NumTy → Bool
  | .i8 | .i16 | .i32 | .i64 => true
  | _ => false

/-- std::numeric_limits of T max() for the integral target types. -/
def NumTy.intMax : NumTy → Int
  | .i8 => 127
  | .i16 => 32767
  | .i32 => 2147483647
  | .i64 => 9223372036854775807
  | .u8 => 255
  | .u16 => 65535
  | .u32 => 4294967295
  | .u64 => 18446744073709551615
  | .f32 => 0
  | .f64 => 0

/-- std::numeric_limits of T lowest() for the integral target types. -/
def NumTy.intMin : NumTy → Int
  | .i8 => -128
  | .i16 => -32768
  | .i32 => -2147483648
  | .i64 => -9223372036854775808
  | _ => 0

/-- std::numeric_limits max() of float and double as exact rationals
(FLT_MAX = (2^24 - 1) * 2^104, DBL_MAX = (2^53 - 1) * 2^971).  Both convert
to double exactly, so the comparisons in ParseNumber compare against exactly
these values. -/
def fltMax : NumTy → ℚ
  | .f32 => (2 ^ 24 - 1) * 2 ^ 104
  | .f64 => (2 ^ 53 - 1) * 2 ^ 971
  | _ => 0

/-- The check in the number_integer branch of ParseNumber:
val > numeric_limits of T max() || val < numeric_limits of T lowest(),
with val of type int64_t, under C++ usual arithmetic conversions:
* for signed integral T and for u8/u16/u32, the limits convert to int64_t and
  the comparison is the mathematical one;
* for T = uint64_t, val itself is converted to uint64_t (reduction mod 2^64),
  so the comparison is the converted one written below, which is never true:
  the check cannot fire;
* for T = float or double, val converts to that type; every int64_t has
  magnitude at most 2^63, far below FLT_MAX and DBL_MAX, so the check is
  never true. -/
def intTokOutOfRange : NumTy → Int → Bool
  | .i8, v => decide (v > NumTy.i8.intMax) || decide (v < NumTy.i8.intMin)
  | .i16, v => decide (v > NumTy.i16.intMax) || decide (v < NumTy.i16.intMin)
  | .i32, v => decide (v > NumTy.i32.intMax) || decide (v < NumTy.i32.intMin)
  | .i64, v => decide (v > NumTy.i64.intMax) || decide (v < NumTy.i64.intMin)
  | .u8, v => decide (v > NumTy.u8.intMax) || decide (v < 0)
  | .u16, v => decide (v > NumTy.u16.intMax) || decide (v < 0)
  | .u32, v => decide (v > NumTy.u32.intMax) || decide (v < 0)
  | .u64, v =>
      decide (v.emod (2 ^ 64) > NumTy.u64.intMax) || decide (v.emod (2 ^ 64) < 0)
  | .f32, _ => false
  | .f64, _ => false

/-- The cast target = (T)val in the number_integer branch (performed only when
the range check passed).  For T = uint64_t the conversion reduces mod 2^64;
for the other integral types the checked value is already in range so the
cast is the identity; for floating targets the real value is recorded (the
claims never inspect a float-target store). -/
def castIntTok : NumTy → Int → Val
  | .u64, v => .vint (v.emod (2 ^ 64))
  | .f32, v => .vrat (v : ℚ)
  | .f64, v => .vrat (v : ℚ)
  | _, v => .vint v

/-- The check in the number_unsigned branch of ParseNumber:
val > numeric_limits of T max(), with val of type uint64_t.  For every
integral T the limit is a non-negative value that converts exactly under the
usual arithmetic conversions, so the comparison is the mathematical one; for
T = uint64_t it can never be true for a genuine uint64_t payload; for float
and double targets the converted limit far exceeds every uint64_t value. -/
def uintTokOutOfRange : NumTy → Nat → Bool
  | .i8, v => decide ((v : Int) > NumTy.i8.intMax)
  | .i16, v => decide ((v : Int) > NumTy.i16.intMax)
  | .i32, v => decide ((v : Int) > NumTy.i32.intMax)
  | .i64, v => decide ((v : Int) > NumTy.i64.intMax)
  | .u8, v => decide ((v : Int) > NumTy.u8.intMax)
  | .u16, v => decide ((v : Int) > NumTy.u16.intMax)
  | .u32, v => decide ((v : Int) > NumTy.u32.intMax)
  | .u64, v => decide ((v : Int) > NumTy.u64.intMax)
  | .f32, _ => false
  | .f64, _ => false

/-- The cast target = (T)val in the number_unsigned branch (performed only
when the range check passed, so the value is in range for integral T). -/
def castUintTok : NumTy → Nat → Val
  | .f32, v => .vrat (v : ℚ)
  | .f64, v => .vrat (v : ℚ)
  | _, v => .vint (v : Int)

/-- Decimal value of a digit list, accumulated left to right exactly as the
stdlib converts consecutive digit characters. -/
def digitsVal (ds : List Char) : Nat :=
  ds.foldl (fun acc c => acc * 10 + (c.toNat - 48)) 0

/-- Leading-sign handling of std::from_chars: a minus sign is consumed
exactly when the target type is signed; nothing else is consumed. -/
def signSplit (t : NumTy) (cs : List Char) : Bool × List Char :=
  match cs with
  | '-' :: r => if t.isSigned then (true, r) else (false, cs)
  | _ => (false, cs)

/-- Model of std::from_chars for an integral target type T over the full
string slice: an optional leading minus sign (recognised only when T is
signed), then a maximal non-empty run of decimal digits; anything after that
run is simply not consumed (from_chars reports where it stopped, and
ParseNumber ignores that position, checking only the error code).  Returns
none exactly when from_chars reports invalid_argument (no digits consumed) or
result_out_of_range (parsed value outside the range of T), the two cases in
which ec differs from errc().  This models the C++ standard library callee of
ParseNumber, which is outside the repository source. -/
def fromCharsInt (t : NumTy) (s : String) : Option Int :=
  let sr := signSplit t s.data
  let ds := sr.2.takeWhile Char.isDigit
  if ds.isEmpty then none
  else
    let v : Int := if sr.1 then -(digitsVal ds : Int) else (digitsVal ds : Int)
    if v > t.intMax ∨ v < t.intMin then none else some v

/-- Model of std::from_chars for a floating target type over the full string
slice (chars_format::general): optional minus sign, a non-empty digit
sequence possibly containing one decimal point, and an optional exponent
part; the value is kept as an exact rational and range-checked against the
target maximum.  The hex, inf and nan spellings and gradual-underflow
reporting are not modelled; no claim evaluates float-target string parsing,
this definition only keeps the ParseNumber model total. -/
def fromCharsFlt (t : NumTy) (s : String) : Option ℚ :=
  let cs := s.data
  let sgnAndRest : ℚ × List Char :=
    match cs with
    | '-' :: r => (-1, r)
    | _ => (1, cs)
  let ip := sgnAndRest.2.takeWhile Char.isDigit
  let cs2 := sgnAndRest.2.drop ip.length
  let fpAndRest : List Char × List Char :=
    match cs2 with
    | '.' :: r => (r.takeWhile Char.isDigit, r.drop (r.takeWhile Char.isDigit).length)
    | _ => ([], cs2)
  if ip.isEmpty && fpAndRest.1.isEmpty then none
  else
    let mant : ℚ := (digitsVal (ip ++ fpAndRest.1) : ℚ) / (10 ^ fpAndRest.1.length)
    let ex : Int :=
      match fpAndRest.2 with
      | 'e' :: '-' :: r => if (r.takeWhile Char.isDigit).isEmpty then 0 else -(digitsVal (r.takeWhile Char.isDigit) : Int)
      | 'E' :: '-' :: r => if (r.takeWhile Char.isDigit).isEmpty then 0 else -(digitsVal (r.takeWhile Char.isDigit) : Int)
      | 'e' :: '+' :: r => (digitsVal (r.takeWhile Char.isDigit) : Int)
      | 'E' :: '+' :: r => (digitsVal (r.takeWhile Char.isDigit) : Int)
      | 'e' :: r => (digitsVal (r.takeWhile Char.isDigit) : Int)
      | 'E' :: r => (digitsVal (r.takeWhile Char.isDigit) : Int)
      | _ => 0
    let v : ℚ := sgnAndRest.1 * mant * (10 : ℚ) ^ ex
    if v > fltMax t ∨ v < -(fltMax t) then none else some v

/-- The string branch of ParseNumber calls std::from_chars at the static
target type: the integral overload for integral T, the floating overload for
float and double. -/
def fromCharsAt (t : NumTy) (s : String) : Option Val :=
  if t.isIntegral then (fromCharsInt t s).map Val.vint
  else (fromCharsFlt t s).map Val.vrat

/-- Depth adjustment of one token inside SkipNextElement: start_object and
start_array increment the counter, end_object and end_array decrement it,
every other token leaves it unchanged. -/
def skipDelta (tok : JSONToken) : Int :=
  match tok with
  | .start_object | .start_array => 1
  | .end_object | .end_array => -1
  | _ => 0

/-- The caller-owned target memory: a list of slots, each holding one
caller-supplied structure, addressed by slot index and field path.  Slot
contents are the structures a parse invocation writes into. -/
abbrev Heap := List Val

/-- Write new inside a value at the given path (no-op when the path does not
exist, which never happens through the references the combinators create). -/
def setV (p : List PathElem) (new : Val) : Val → Val
  | v =>
    match p, v with
    | [], _ => new
    | .fld k :: rest, .vobj fs =>
        .vobj (fs.map (fun kv => if kv.1 = k then (kv.1, setV rest new kv.2) else kv))
    | .idx n :: rest, .vlist xs =>
        .vlist (xs.set n (setV rest new (xs.getD n (.vint 0))))
    | _, w => w

/-- Read the value at a path inside a value. -/
def getV (p : List PathElem) (v : Val) : Option Val :=
  match p, v with
  | [], w => some w
  | .fld k :: rest, .vobj fs =>
      match fs.find? (fun kv => kv.1 = k) with
      | some kv => getV rest kv.2
      | none => none
  | .idx n :: rest, .vlist xs =>
      match xs.get? n with
      | some w => getV rest w
      | none => none
  | _, _ => none

/-- Write through a heap reference (slot index plus path). -/
def heapSet (h : Heap) (slot : Nat) (p : List PathElem) (v : Val) : Heap :=
  h.set slot (setV p v (h.getD slot (.vint 0)))

/-- Read through a heap reference. -/
def heapGet (h : Heap) (slot : Nat) (p : List PathElem) : Option Val :=
  match h.get? slot with
  | some w => getV p w
  | none => none

/-- The target location a scalar-writing continuation captured: either a
reference into the caller-owned heap (the by-reference captures of
ParseString, ParseBool, ParseNumber and core::ParseList), or a pointer into
the object copy captured by value by the ParseObject lambda that created this
continuation, which sits directly beneath it on the parser stack. -/
inductive Tgt where
  | heap (slot : Nat) (path : List PathElem)
  | below (path : List PathElem)
deriving DecidableEq

/-- struct ParseResult, parameterised by the continuation type so it can be
nested inside the continuation inductive: the result type tag, the optional
error message, and the optional new parser continuation. -/
structure PRes (C : Type) where
  type : ParseResultType
  error : Option String := none
  newParser : Option C := none

/-- A parser continuation (one stored JSONParseFunc std::function value) in
its current mutable-capture state.  Each constructor is one of the lambdas
built by the combinator factories of the header:
* parseStringC / parseBoolC / parseNumberC: the lambdas of ParseString,
  ParseBool, ParseNumber, capturing a reference to their scalar target;
* skipC: the SkipNextElement lambda with its mutable depth counter;
* objC: the ParseObject lambda.  It captures the target object BY VALUE
  (capture list [object, handler, first = true]), so the copy is stored here
  in the continuation, together with the key handler and the mutable first
  flag.  The handler receives the key text and the current copy and returns
  the ParseResult plus the possibly updated copy;
* listC: the core::ParseList lambda, capturing the collection by reference
  (heap slot and path), the default-constructed element value used by
  emplace_back, the item parser factory, and the mutable first flag;
* selfReplayC: a user-written continuation that returns
  NewParser_ReplayCurrent carrying itself on every token, the combinator
  discussed by the spec as the unguarded replay cycle. -/
inductive JSONParseFunc where
  | parseStringC (a : Tgt)
  | parseBoolC (a : Tgt)
  | parseNumberC (t : NumTy) (a : Tgt)
  | skipC (depth : Int)
  | objC (obj : Val) (handler : String → Val → PRes JSONParseFunc × Val) (first : Bool)
  | listC (slot : Nat) (path : List PathElem) (dflt : Val)
      (factory : Nat → List PathElem → Heap → JSONParseFunc) (first : Bool)
  | selfReplayC

/-- ParseResult as used by the program: results carrying JSONParseFunc continuations. -/
abbrev ParseResult := PRes JSONParseFunc

/-- Helper KeepParsing() of the header. -/
def KeepParsing : ParseResult := { type := .KeepParsing }

/-- Helper ParserDone() of the header. -/
def ParserDone : ParseResult := { type := .ParserDone }

/-- Helper ParseError(error) of the header. -/
def ParseError (e : String) : ParseResult := { type := .Error, error := some e }

/-- Helper NewParser(parser) of the header. -/
def NewParser (p : JSONParseFunc) : ParseResult := { type := .NewParser, newParser := some p }

/-- Helper NewParserRepeatToken(parser) of the header. -/
def NewParserRepeatToken (p : JSONParseFunc) : ParseResult :=
  { type := .NewParser_ReplayCurrent, newParser := some p }

/-- Current collection contents at a heap reference (the vector the
core::ParseList lambda holds a reference to). -/
def getList (h : Heap) (slot : Nat) (p : List PathElem) : List Val :=
  match heapGet h slot p with
  | some (.vlist xs) => xs
  | _ => []

/-- Deliver one token to one continuation: the body of the lambda the
corresponding combinator built.  Returns the ParseResult, the continuation in
its post-call mutable state, the heap after any container growth, and the
scalar write request the lambda performs through its captured target
reference (applied by the machine, since a Tgt.below write lands in the
continuation beneath on the stack). -/
def JSONParseFunc.step : JSONParseFunc → JSONToken → Heap → ParseResult × JSONParseFunc × Heap × Option (Tgt × Val)
  | c@(.parseStringC a), tok, h =>
      match tok with
      | .string s => (ParserDone, c, h, some (a, .vstr s))
      | _ => (ParseError "Unexpected data type", c, h, none)
  | c@(.parseBoolC a), tok, h =>
      match tok with
      | .boolean b => (ParserDone, c, h, some (a, .vbool b))
      | _ => (ParseError "Unexpected data type", c, h, none)
  | c@(.parseNumberC t a), tok, h =>
      match tok with
      | .number_integer v =>
          if intTokOutOfRange t v then
            (ParseError "Number read is out of range for given type", c, h, none)
          else (ParserDone, c, h, some (a, castIntTok t v))
      | .number_unsigned v =>
          if uintTokOutOfRange t v then
            (ParseError "Number read is out of range for given type", c, h, none)
          else (ParserDone, c, h, some (a, castUintTok t v))
      | .number_float q =>
          if t.isIntegral then
            (ParseError "Can't parse a floating point into an integral type", c, h, none)
          else if q > fltMax t ∨ q < -(fltMax t) then
            (ParseError "Number read is out of range for given type", c, h, none)
          else (ParserDone, c, h, some (a, .vrat q))
      | .string s =>
          match fromCharsAt t s with
          | some v => (ParserDone, c, h, some (a, v))
          | none => (ParseError "Failed parsing integer", c, h, none)
      | _ => (ParseError "Unexpected token type", c, h, none)
  | .skipC depth, tok, h =>
      let d2 := depth + skipDelta tok
      if d2 < 0 then (ParseError "Malformed document while skiping element", .skipC d2, h, none)
      else if d2 = 0 then (ParserDone, .skipC d2, h, none)
      else (KeepParsing, .skipC d2, h, none)
  | .objC obj handler first, tok, h =>
      if first then
        match tok with
        | .start_object => (KeepParsing, .objC obj handler false, h, none)
        | _ => (ParseError "Expected object start", .objC obj handler false, h, none)
      else
        match tok with
        | .end_object => (ParserDone, .objC obj handler false, h, none)
        | .key k =>
            let ro := handler k obj
            (ro.1, .objC ro.2 handler false, h, none)
        | _ => (ParseError "Unexpected element type", .objC obj handler false, h, none)
  | .listC slot path dflt factory first, tok, h =>
      if first then
        match tok with
        | .start_array => (KeepParsing, .listC slot path dflt factory false, h, none)
        | _ => (ParseError "No open array token for list", .listC slot path dflt factory false, h, none)
      else
        match tok with
        | .end_array => (ParserDone, .listC slot path dflt factory false, h, none)
        | _ =>
            let cur := getList h slot path
            let h2 := heapSet h slot path (.vlist (cur ++ [dflt]))
            (NewParserRepeatToken (factory slot (path ++ [.idx cur.length]) h2),
              .listC slot path dflt factory false, h2, none)
  | .selfReplayC, _, h => (NewParserRepeatToken .selfReplayC, .selfReplayC, h, none)

/-- Write a scalar through a pointer into the object copy captured by the
ParseObject lambda beneath on the stack (a Tgt.below reference).  The write
mutates the captured copy in place; through any other continuation it would
be a dangling write, which well-formed parses never perform, modelled as a
no-op. -/
def writeBelow (p : List PathElem) (v : Val) : JSONParseFunc → JSONParseFunc
  | .objC obj handler first => .objC (setV p v obj) handler first
  | c => c

/-- Apply the scalar write request a continuation step produced: a heap
target writes into the caller-owned heap; a below target writes into the
continuation directly beneath on the stack. -/
def applyWrite (rest : List JSONParseFunc) (h : Heap) :
    Option (Tgt × Val) → List JSONParseFunc × Heap
  | none => (rest, h)
  | some (.heap slot path, v) => (rest, heapSet h slot path v)
  | some (.below path, v) =>
      match rest with
      | b :: bs => (writeBelow path v b :: bs, h)
      | [] => ([], h)

/-- The SaxParser state: the caller-owned heap, the parser_stack (top of the
std::stack is the head of the list) and the first error message recorded by
the registered on_error handler. -/
structure MState where
  heap : Heap
  stack : List JSONParseFunc
  err : Option String

/-- Result of one SaxParser::inner_parser::ParseToken call.  ok carries the
bool the function returns (false stops the reader) and the state after the
call.  outOfFuel models non-termination of the replay recursion: the C++
function recurses unboundedly on NewParser_ReplayCurrent, so the model runs
it on fuel, and a result of outOfFuel for every fuel amount is divergence.
stuck models the two undefined executions the code can reach: calling top()
on an empty parser_stack, or new_parser.value() on an empty optional. -/
inductive StepOut where
  | ok (keepGoing : Bool) (st : MState)
  | outOfFuel
  | stuck

/-- SaxParser::inner_parser::ParseToken: deliver the token to the top of the
parser stack and interpret the ParseResult; on NewParser_ReplayCurrent, push
the new parser and recursively redeliver the same token. -/
def parseTokenAux : Nat → MState → JSONToken → StepOut
  | 0, _, _ => .outOfFuel
  | fuel + 1, st, tok =>
      match st.stack with
      | [] => .stuck
      | c :: rest =>
          let out := c.step tok st.heap
          let restAndHeap := applyWrite rest out.2.2.1 out.2.2.2
          match out.1.type with
          | .KeepParsing => .ok true ⟨restAndHeap.2, out.2.1 :: restAndHeap.1, st.err⟩
          | .ParserDone => .ok true ⟨restAndHeap.2, restAndHeap.1, st.err⟩
          | .Error =>
              .ok false ⟨restAndHeap.2, out.2.1 :: restAndHeap.1,
                some ("Bad JSON item: " ++ (out.1.error.getD ""))⟩
          | .NewParser =>
              match out.1.newParser with
              | some p => .ok true ⟨restAndHeap.2, p :: out.2.1 :: restAndHeap.1, st.err⟩
              | none => .stuck
          | .NewParser_ReplayCurrent =>
              match out.1.newParser with
              | some p =>
                  parseTokenAux fuel ⟨restAndHeap.2, p :: out.2.1 :: restAndHeap.1, st.err⟩ tok
              | none => .stuck

/-- The ParseToken call terminates on this state and token: some fuel amount
suffices for the replay recursion to bottom out. -/
def Terminates (st : MState) (tok : JSONToken) : Prop :=
  ∃ fuel st2 b, parseTokenAux fuel st tok = .ok b st2

/-- Feed tokens one at a time, as rapidjson Reader.Parse drives the
inner_parser: each token goes through ParseToken; a false return stops the
reader, so the remaining tokens are never delivered.  Returns none when a
ParseToken call fails to terminate within the fuel or reaches an undefined
execution. -/
def runTokens (fuel : Nat) : MState → List JSONToken → Option MState
  | st, [] => some st
  | st, tok :: ts =>
      match parseTokenAux fuel st tok with
      | .ok true st2 => runTokens fuel st2 ts
      | .ok false st2 => some st2
      | _ => none

/-- The root key handler type JSONObjectParser of T: the handler receives the
key text and (a reference to) the target object and returns the ParseResult,
together with the object state after any direct writes it performed. -/
abbrev JSONObjectParserM := String → Val → ParseResult × Val

/-- The ParseObject factory: NewParser over a lambda whose capture list is
[object, handler, first = true] - the target object is captured BY VALUE, so
the continuation stores a copy of the object as it was at capture time. -/
def ParseObject (object : Val) (handler : JSONObjectParserM) : ParseResult :=
  NewParser (.objC object handler true)

/-- The top-level ParseJson overload taking the target object by reference:
it registers an error handler that records the first message, pushes
ParseObject(object, root_handler).new_parser.value() as the root continuation
and feeds the token stream; it returns the recorded message if any, and the
final heap shows what the parse wrote into the caller-owned target (slot 0
holds the caller object). -/
def ParseJson (fuel : Nat) (object : Val) (rootHandler : JSONObjectParserM)
    (toks : List JSONToken) : Option (Except String Unit × Heap) :=
  match runTokens fuel ⟨[object], [.objC object rootHandler true], none⟩ toks with
  | some st =>
      some (match st.err with
            | some e => .error e
            | none => .ok (), st.heap)
  | none => none

/-- The object copy currently held by a ParseObject continuation (projection
used to observe, mid-parse, what the by-value capture has accumulated). -/
def objValOf : JSONParseFunc → Option Val
  | .objC o _ _ => some o
  | _ => none

/-- Structural nesting depth of a consumed token prefix: number of
start_object/start_array minus number of end_object/end_array tokens. -/
def nesting (ts : List JSONToken) : Int :=
  (ts.map skipDelta).sum

/-- How many currently open structural tokens a continuation is responsible
for closing: a ParseObject or core::ParseList continuation that has consumed
its opening token owns one, a skip continuation owns its current depth,
scalar continuations own none. -/
def owned : JSONParseFunc → Int
  | .objC _ _ first => if first then 0 else 1
  | .listC _ _ _ _ first => if first then 0 else 1
  | .skipC d => d
  | _ => 0

/-- Total opens owned by a parser stack. -/
def stackOwned (stk : List JSONParseFunc) : Int :=
  (stk.map owned).sum

/-- A continuation in the state in which a combinator factory hands it out,
before it has received any token: first flags still set, skip depth zero. -/
def IsFresh : JSONParseFunc → Prop
  | .skipC d => d = 0
  | .objC _ _ first => first = true
  | .listC _ _ _ _ first => first = true
  | .parseStringC _ => True
  | .parseBoolC _ => True
  | .parseNumberC _ _ => True
  | .selfReplayC => False

mutual
/-- Well-formed library continuations: every continuation a combinator of the
header can build, with key handlers and item factories that themselves hand
out freshly built library continuations (and never retire the enclosing
object parser on a key, i.e. never return ParserDone from a key handler). -/
inductive WFC : JSONParseFunc → Prop where
  | pstr (a : Tgt) : WFC (.parseStringC a)
  | pbool (a : Tgt) : WFC (.parseBoolC a)
  | pnum (t : NumTy) (a : Tgt) : WFC (.parseNumberC t a)
  | pskip (d : Int) : 0 ≤ d → WFC (.skipC d)
  | pobj (obj : Val) (handler : JSONObjectParserM) (first : Bool) :
      (∀ k x, WFR (handler k x).1) → WFC (.objC obj handler first)
  | plist (slot : Nat) (path : List PathElem) (dflt : Val)
      (factory : Nat → List PathElem → Heap → JSONParseFunc) (first : Bool) :
      (∀ s p h, IsFresh (factory s p h)) →
      (∀ s p h, WFC (factory s p h)) →
      WFC (.listC slot path dflt factory first)

/-- Well-formed key-handler results: not ParserDone, and any continuation
handed to the dispatcher is present, fresh and well formed. -/
inductive WFR : ParseResult → Prop where
  | mk (r : ParseResult) :
      r.type ≠ .ParserDone →
      (r.type = .NewParser ∨ r.type = .NewParser_ReplayCurrent →
        r.newParser.isSome = true) →
      (∀ c, r.newParser = some c → IsFresh c) →
      (∀ c, r.newParser = some c → WFC c) →
      WFR r
end

/-- The stack invariant of an in-progress parse over library continuations:
every entry is well formed, and every entry below the top has already
consumed its opening token (owns at least one open). -/
def StackOK (stk : List JSONParseFunc) : Prop :=
  (∀ c ∈ stk, WFC c) ∧ (∀ c ∈ stk.tail, 1 ≤ owned c)

/-- All listed tokens were delivered in order, every ParseToken call
terminated and returned true (the parse is still in progress after each of
them), ending in the given state. -/
def DeliversTo (fuel : Nat) : MState → List JSONToken → MState → Prop
  | st, [], st2 => st2 = st
  | st, tok :: ts, st2 =>
      ∃ stm, parseTokenAux fuel st tok = .ok true stm ∧ DeliversTo fuel stm ts st2

/-- A scalar continuation never writes its target except on a ParserDone
outcome, and on an Error outcome it leaves the heap untouched and requests no
write at all. -/
def WritesOnlyOnDone (c : JSONParseFunc) : Prop :=
  ∀ tok h,
    ((c.step tok h).1.type = .Error →
      (c.step tok h).2.2.2 = none ∧ (c.step tok h).2.2.1 = h)
    ∧ ((c.step tok h).2.2.2.isSome = true → (c.step tok h).1.type = .ParserDone)

/-- The sequence of result types produced by feeding a token list to one
continuation (threading its mutable state and the heap). -/
def runResults (c : JSONParseFunc) (h : Heap) : List JSONToken → List ParseResultType
  | [] => []
  | tok :: ts =>
      (c.step tok h).1.type :: runResults (c.step tok h).2.1 (c.step tok h).2.2.1 ts

/-- The result types and final depth of the SkipNextElement counter run over
a token list from a starting depth (the arithmetic core of its lambda). -/
def runSkip (d : Int) : List JSONToken → List ParseResultType × Int
  | [] => ([], d)
  | tok :: ts =>
      let d2 := d + skipDelta tok
      let r : ParseResultType :=
        if d2 < 0 then .Error else if d2 = 0 then .ParserDone else .KeepParsing
      ((r :: (runSkip d2 ts).1), (runSkip d2 ts).2)

/-- Scalar value tokens: the payload-bearing leaf tokens of a document. -/
def isScalarTok : JSONToken → Bool
  | .null | .boolean _ | .number_integer _ | .number_unsigned _
  | .number_float _ | .string _ => true
  | _ => false

mutual
/-- Token lists forming one well-formed balanced subtree: a single scalar, or
a (possibly empty) array of subtrees, or a (possibly empty) object of
key/subtree pairs, arbitrarily nested. -/
inductive SkipTree : List JSONToken → Prop where
  | scalar (tok : JSONToken) : isScalarTok tok = true → SkipTree [tok]
  | arr (body : List JSONToken) : SkipSeq body →
      SkipTree (.start_array :: body ++ [.end_array])
  | obj (body : List JSONToken) : SkipFields body →
      SkipTree (.start_object :: body ++ [.end_object])

/-- Concatenations of subtrees (array bodies). -/
inductive SkipSeq : List JSONToken → Prop where
  | nil : SkipSeq []
  | cons (s b : List JSONToken) : SkipTree s → SkipSeq b → SkipSeq (s ++ b)

/-- Concatenations of key tokens followed by subtrees (object bodies). -/
inductive SkipFields : List JSONToken → Prop where
  | nil : SkipFields []
  | cons (k : String) (s b : List JSONToken) : SkipTree s → SkipFields b →
      SkipFields (.key k :: s ++ b)
end

/-- Reading of the original C3 sentence: the ENTIRE string slice parses as a
numeral of the integral type T (optional minus sign when T is signed, then
digits up to the very end of the slice, value in range). -/
def wholeSliceInt (t : NumTy) (s : String) : Option Int :=
  let sr := signSplit t s.data
  if sr.2 ≠ [] ∧ sr.2.all Char.isDigit then
    let v : Int :=
      if sr.1 then -(digitsVal sr.2 : Int) else (digitsVal sr.2 : Int)
    if t.intMin ≤ v ∧ v ≤ t.intMax then some v else none
  else none

/-- Specification-side description of what the string branch accepts for an
integral target: a maximal non-empty leading run of digits (after an optional
minus sign, recognised only for signed targets), whose value fits the target
range; the remainder of the slice is arbitrary. -/
def PrefNum (t : NumTy) (s : String) (v : Int) : Prop :=
  ∃ (neg : Bool) (ds rest : List Char),
    s.data = (if neg then ['-'] else []) ++ ds ++ rest ∧
    (neg = true → t.isSigned = true) ∧
    ds ≠ [] ∧
    (∀ c ∈ ds, c.isDigit = true) ∧
    (∀ c, rest.head? = some c → c.isDigit = false) ∧
    v = (if neg then -(digitsVal ds : Int) else (digitsVal ds : Int)) ∧
    t.intMin ≤ v ∧ v ≤ t.intMax

/-- A two-field key handler as a caller would write it: key a and key b
delegate to ParseScalar of the corresponding std::string member of the
handled object (references into the object the handler was given), anything
else is skipped. -/
def twoFieldHandler : JSONObjectParserM := fun k obj =>
  (if k = "a" then NewParser (.parseStringC (.below [.fld "a"]))
   else if k = "b" then NewParser (.parseStringC (.below [.fld "b"]))
   else NewParser (.skipC 0), obj)

/-- The key handler of the unit test Parse Object: key error returns an
explicit ParseError, everything else is skipped. -/
def errorKeyHandler : JSONObjectParserM := fun k obj =>
  (if k = "error" then ParseError "Sending out an error"
   else NewParser (.skipC 0), obj)

/-- The item parser factory of ParseList(values) for an int32 element
collection: ParseScalar of the newly appended element, i.e. ParseNumber
holding a reference to that element through the by-reference captured
collection. -/
def scalarItemFactoryI32 : Nat → List PathElem → Heap → JSONParseFunc :=
  fun slot p _ => .parseNumberC .i32 (.heap slot p)

/-- C1: The claim says both fields end up populated in the caller-supplied
target and that continuations hold only references to it, never copies.  The
ParseObject lambda captures its target object by value, so a full successful
ParseJson run over the stream start-object, key a, value, key b, value,
end-object leaves the caller-owned object (heap slot 0) completely unchanged
while the copy inside the object continuation receives both fields in input
order: this theorem evaluates the code at that failing input. -/
theorem c1_object_captured_by_value :
    ParseJson 3 (Val.vobj [("a", .vstr ""), ("b", .vstr "")]) twoFieldHandler
      [.start_object, .key "a", .string "va", .key "b", .string "vb", .end_object]
      = some (.ok (), [Val.vobj [("a", .vstr ""), ("b", .vstr "")]])
    ∧ (runTokens 3 ⟨[Val.vobj [("a", .vstr ""), ("b", .vstr "")]],
          [.objC (Val.vobj [("a", .vstr ""), ("b", .vstr "")]) twoFieldHandler true], none⟩
        [.start_object, .key "a", .string "va", .key "b", .string "vb"]).map
          (fun st => st.stack.map objValOf)
      = some [some (Val.vobj [("a", .vstr "va"), ("b", .vstr "vb")])] :=
  ⟨rfl, rfl⟩

/-- C2: The claim says every unsigned target, uint64_t included, rejects a
negative signed-integer payload.  For T = uint64_t the range check compares
int64_t against uint64_t, so the payload is converted modulo 2^64 and the
check never fires: ParseNumber stores the wrapped value 2^64 - 1 for payload
-1 and reports ParserDone.  The narrower unsigned targets do reject. -/
theorem c2_u64_negative_wraps :
    (JSONParseFunc.parseNumberC .u64 (.heap 0 [])).step (.number_integer (-1)) [.vint 0]
      = (ParserDone, .parseNumberC .u64 (.heap 0 []), [.vint 0],
          some (.heap 0 [], .vint 18446744073709551615))
    ∧ ((JSONParseFunc.parseNumberC .u32 (.heap 0 [])).step (.number_integer (-1)) [.vint 0]).1
      = ParseError "Number read is out of range for given type"
    ∧ ((JSONParseFunc.parseNumberC .u8 (.heap 0 [])).step (.number_integer (-1)) [.vint 0]).1
      = ParseError "Number read is out of range for given type"
    ∧ ((JSONParseFunc.parseNumberC .u16 (.heap 0 [])).step (.number_integer (-1)) [.vint 0]).1
      = ParseError "Number read is out of range for given type" :=
  ⟨rfl, rfl, rfl, rfl⟩

/-- C9: For every float token, ParseNumber fails when the target type is
integral; for a floating target the payload is checked against the target
range (out of range fails with the range message) and otherwise the value is
cast and the outcome is ParserDone with the write request for the target. -/
theorem c9_float_token (t : NumTy) (a : Tgt) (q : ℚ) (h : Heap) :
    (t.isIntegral = true →
      (JSONParseFunc.parseNumberC t a).step (.number_float q) h
        = (ParseError "Can't parse a floating point into an integral type",
            .parseNumberC t a, h, none))
    ∧ (t.isIntegral = false → (q > fltMax t ∨ q < -(fltMax t)) →
      (JSONParseFunc.parseNumberC t a).step (.number_float q) h
        = (ParseError "Number read is out of range for given type",
            .parseNumberC t a, h, none))
    ∧ (t.isIntegral = false → -(fltMax t) ≤ q → q ≤ fltMax t →
      (JSONParseFunc.parseNumberC t a).step (.number_float q) h
        = (ParserDone, .parseNumberC t a, h, some (a, .vrat q))) := by
  refine ⟨fun hInt => ?_, fun hInt hout => ?_, fun hInt h1 h2 => ?_⟩
  · simp [JSONParseFunc.step, hInt]
  · simp [JSONParseFunc.step, hInt]
    intro hle
    rcases hout with hgt | hlt
    · exact absurd hle (not_le.mpr hgt)
    · exact hlt
  · simp [JSONParseFunc.step, hInt]
    exact ⟨h2, h1⟩

/-- C9 witness: a float payload of 2^128 does not fit a float target and is
rejected with the range message. -/
theorem c9_float_token_witness :
    (JSONParseFunc.parseNumberC .f32 (.heap 0 [])).step (.number_float (2 ^ 128)) []
      = (ParseError "Number read is out of range for given type",
          .parseNumberC .f32 (.heap 0 []), [], none) :=
  (c9_float_token .f32 (.heap 0 []) (2 ^ 128) []).2.1 rfl (Or.inl (by norm_num [fltMax]))

/-- C10: A continuation built by ParseString, ParseBool or ParseNumber writes
its captured target only on a ParserDone outcome; on any Error outcome it
performs no write and leaves the heap untouched. -/
theorem c10_no_write_on_fail :
    (∀ a : Tgt, WritesOnlyOnDone (.parseStringC a))
    ∧ (∀ a : Tgt, WritesOnlyOnDone (.parseBoolC a))
    ∧ (∀ (t : NumTy) (a : Tgt), WritesOnlyOnDone (.parseNumberC t a)) := by
  refine ⟨fun a tok h => ?_, fun a tok h => ?_, fun t a tok h => ?_⟩
  · cases tok <;> simp [JSONParseFunc.step, ParserDone, ParseError]
  · cases tok <;> simp [JSONParseFunc.step, ParserDone, ParseError]
  · cases tok <;> simp [JSONParseFunc.step, ParserDone, ParseError] <;>
      first
        | (split <;> simp [ParserDone, ParseError])
        | (split <;> [skip; split] <;> simp [ParserDone, ParseError])

/-- C10 witness: a string continuation fed a start_object token fails and
requests no write, leaving the heap unchanged. -/
theorem c10_no_write_on_fail_witness :
    ((JSONParseFunc.parseStringC (.heap 0 [])).step .start_object []).2.2.2 = none
    ∧ ((JSONParseFunc.parseStringC (.heap 0 [])).step .start_object []).2.2.1 = ([] : Heap) :=
  (c10_no_write_on_fail.1 (.heap 0 []) .start_object []).1 rfl

theorem head?_dropWhile_false (p : Char → Bool) (l : List Char) :
    ∀ c, (l.dropWhile p).head? = some c → p c = false := by
  induction l with
  | nil => intro c hc; simp [List.dropWhile] at hc
  | cons x xs ih =>
      intro c hc
      by_cases hp : p x
      · rw [List.dropWhile_cons_of_pos hp] at hc
        exact ih c hc
      · rw [List.dropWhile_cons_of_neg hp] at hc
        simp at hc
        subst hc
        exact Bool.eq_false_iff.mpr hp

theorem takeWhile_all_append (p : Char → Bool) (ds rest : List Char)
    (hds : ∀ c ∈ ds, p c = true) (hrest : ∀ c, rest.head? = some c → p c = false) :
    (ds ++ rest).takeWhile p = ds := by
  induction ds with
  | nil =>
      cases rest with
      | nil => rfl
      | cons r rs =>
          simp only [List.nil_append]
          exact List.takeWhile_cons_of_neg (by simp [hrest r rfl])
  | cons d ds ih =>
      have hd : p d = true := hds d (List.mem_cons_self d ds)
      simp only [List.cons_append]
      rw [List.takeWhile_cons_of_pos hd]
      rw [ih (fun c hc => hds c (List.mem_cons_of_mem d hc))]

theorem signSplit_fst_true (t : NumTy) (cs : List Char) (h : (signSplit t cs).1 = true) :
    cs = '-' :: (signSplit t cs).2 ∧ t.isSigned = true := by
  unfold signSplit at *
  split at h
  · rename_i r
    by_cases hs : t.isSigned
    · simp [hs]
    · simp [hs] at h
  · simp at h

theorem signSplit_fst_false (t : NumTy) (cs : List Char) (h : (signSplit t cs).1 = false) :
    (signSplit t cs).2 = cs := by
  unfold signSplit at *
  split at h
  · rename_i r
    by_cases hs : t.isSigned
    · simp [hs] at h
    · simp [hs]
  · simp

theorem signSplit_minus (t : NumTy) (r : List Char) (hs : t.isSigned = true) :
    signSplit t ('-' :: r) = (true, r) := by
  simp [signSplit, hs]

theorem signSplit_no_minus (t : NumTy) (cs : List Char)
    (h : ∀ c, cs.head? = some c → c ≠ '-') : signSplit t cs = (false, cs) := by
  unfold signSplit
  split
  · rename_i r
    exact absurd rfl (h '-' rfl)
  · rfl

/-- The from_chars model succeeds with value v exactly when the slice admits
the maximal-digit-run reading PrefNum describes for v. -/
theorem fromCharsInt_iff_PrefNum (t : NumTy) (s : String) (v : Int) :
    fromCharsInt t s = some v ↔ PrefNum t s v := by
  constructor
  · intro hfc
    unfold fromCharsInt at hfc
    simp only at hfc
    by_cases hemp : (((signSplit t s.data).2.takeWhile Char.isDigit)).isEmpty
    · rw [if_pos hemp] at hfc; cases hfc
    · rw [if_neg hemp] at hfc
      by_cases hrange :
          (if (signSplit t s.data).1 then
            -(digitsVal ((signSplit t s.data).2.takeWhile Char.isDigit) : Int)
          else (digitsVal ((signSplit t s.data).2.takeWhile Char.isDigit) : Int)) > t.intMax
          ∨ (if (signSplit t s.data).1 then
            -(digitsVal ((signSplit t s.data).2.takeWhile Char.isDigit) : Int)
          else (digitsVal ((signSplit t s.data).2.takeWhile Char.isDigit) : Int)) < t.intMin
      · rw [if_pos hrange] at hfc; cases hfc
      · rw [if_neg hrange] at hfc
        have hv : (if (signSplit t s.data).1 then
            -(digitsVal ((signSplit t s.data).2.takeWhile Char.isDigit) : Int)
          else (digitsVal ((signSplit t s.data).2.takeWhile Char.isDigit) : Int)) = v := by
          injection hfc
        push_neg at hrange
        refine ⟨(signSplit t s.data).1, (signSplit t s.data).2.takeWhile Char.isDigit,
          (signSplit t s.data).2.dropWhile Char.isDigit, ?_, ?_, ?_, ?_, ?_, ?_, ?_, ?_⟩
        · cases hng : (signSplit t s.data).1 with
          | true =>
              obtain ⟨hdata, _⟩ := signSplit_fst_true t s.data hng
              simp only [List.append_assoc, List.takeWhile_append_dropWhile, if_pos]
              exact hdata
          | false =>
              have h2 := signSplit_fst_false t s.data hng
              simp only [List.append_assoc, List.takeWhile_append_dropWhile,
                List.nil_append, if_neg]
              exact h2.symm
        · intro hng
          exact (signSplit_fst_true t s.data hng).2
        · simpa [List.isEmpty_iff] using hemp
        · exact fun c hc => List.mem_takeWhile_imp hc
        · exact head?_dropWhile_false Char.isDigit (signSplit t s.data).2
        · exact hv.symm
        · rw [← hv]; exact hrange.2
        · rw [← hv]; exact hrange.1
  · rintro ⟨neg, ds, rest, hdata, hsig, hne, hdig, hrest, hv, hlo, hhi⟩
    have htw : (ds ++ rest).takeWhile Char.isDigit = ds :=
      takeWhile_all_append Char.isDigit ds rest hdig hrest
    unfold fromCharsInt
    simp only
    cases neg with
    | true =>
        simp only [if_pos] at hdata hv
        rw [hdata, List.append_assoc, List.singleton_append,
          signSplit_minus t (ds ++ rest) (hsig rfl)]
        simp only [htw]
        rw [if_neg (by simpa [List.isEmpty_iff] using hne)]
        rw [if_neg (by push_neg; rw [← hv]; exact ⟨hhi, hlo⟩)]
        rw [← hv]
        simp
    | false =>
        simp only [if_neg (by simp : ¬(false = true))] at hdata hv
        rw [List.nil_append] at hdata
        have hnm : signSplit t (ds ++ rest) = (false, ds ++ rest) := by
          apply signSplit_no_minus
          intro c hc hcm
          rcases ds with _ | ⟨d, ds2⟩
          · exact hne rfl
          · simp at hc
            subst hc
            subst hcm
            have := hdig '-' (List.mem_cons_self _ _)
            simp [Char.isDigit] at this
        rw [hdata, hnm]
        simp only [htw]
        rw [if_neg (by simpa [List.isEmpty_iff] using hne)]
        rw [if_neg (by push_neg; rw [← hv]; exact ⟨hhi, hlo⟩)]
        rw [← hv]
        simp

/-- C3 (amended): for every string token and integral target type T, the
outcome is ParserDone with value v (assigned to the target) exactly when a
numeral of T parses from the START of the slice: an optional minus sign for
signed T followed by a maximal non-empty digit run whose value fits T, with
arbitrary unconsumed characters allowed after it; when no such reading
exists the outcome is Fail with the parse-failure message. -/
theorem c3_string_prefix_numeral (t : NumTy) (a : Tgt) (s : String) (h : Heap)
    (hInt : t.isIntegral = true) :
    (∀ v : Int,
      (JSONParseFunc.parseNumberC t a).step (.string s) h
        = (ParserDone, .parseNumberC t a, h, some (a, .vint v)) ↔ PrefNum t s v)
    ∧ ((¬ ∃ v, PrefNum t s v) →
      (JSONParseFunc.parseNumberC t a).step (.string s) h
        = (ParseError "Failed parsing integer", .parseNumberC t a, h, none)) := by
  constructor
  · intro v
    simp only [JSONParseFunc.step, fromCharsAt, hInt, if_true]
    cases hfc : fromCharsInt t s with
    | some w =>
        simp only [Option.map_some']
        constructor
        · intro heq
          have hw : w = v := by
            have := congrArg (fun x => x.2.2.2) heq
            simpa using this
          subst hw
          exact (fromCharsInt_iff_PrefNum t s w).mp hfc
        · intro hp
          have : fromCharsInt t s = some v := (fromCharsInt_iff_PrefNum t s v).mpr hp
          rw [hfc] at this
          injection this with hw
          subst hw
          rfl
    | none =>
        simp only [Option.map_none']
        constructor
        · intro heq
          have := congrArg (fun x => x.1.type) heq
          simp [ParseError, ParserDone] at this
        · intro hp
          have : fromCharsInt t s = some v := (fromCharsInt_iff_PrefNum t s v).mpr hp
          rw [hfc] at this
          cases this
  · intro hno
    simp only [JSONParseFunc.step, fromCharsAt, hInt, if_true]
    cases hfc : fromCharsInt t s with
    | some w =>
        exact absurd ⟨w, (fromCharsInt_iff_PrefNum t s w).mp hfc⟩ hno
    | none => simp only [Option.map_none']

/-- C3 counterexample: the slice 1234.0 does NOT parse in its entirety as a
numeral of int32_t, yet ParseNumber at an int32 target accepts it with
outcome ParserDone, storing the prefix value 1234 (from_chars checks only
the error code, never that the whole slice was consumed); this is exactly
the behaviour the unit test for string float into Int32 requires. -/
theorem c3_whole_slice_counterexample :
    (JSONParseFunc.parseNumberC .i32 (.heap 0 [])).step (.string "1234.0") [.vint 0]
      = (ParserDone, .parseNumberC .i32 (.heap 0 []), [.vint 0],
          some (.heap 0 [], .vint 1234))
    ∧ wholeSliceInt .i32 "1234.0" = none :=
  ⟨rfl, rfl⟩

/-- C3 witness: the amended theorem applied to the slice 1234.0 at int32
yields the prefix reading with value 1234. -/
theorem c3_string_prefix_numeral_witness :
    PrefNum .i32 "1234.0" 1234 :=
  ((c3_string_prefix_numeral .i32 (.heap 0 []) "1234.0" [.vint 0] rfl).1 1234).mp rfl

theorem runResults_skipC (toks : List JSONToken) :
    ∀ (d : Int) (h : Heap), runResults (.skipC d) h toks = (runSkip d toks).1 := by
  induction toks with
  | nil => intro d h; rfl
  | cons tok ts ih =>
      intro d h
      simp only [runResults, runSkip, JSONParseFunc.step]
      by_cases h0 : d + skipDelta tok < 0
      · rw [if_pos h0, if_pos h0]
        simp [ParseError, ih]
      · rw [if_neg h0, if_neg h0]
        by_cases h1 : d + skipDelta tok = 0
        · rw [if_pos h1, if_pos h1]
          simp [ParserDone, ih]
        · rw [if_neg h1, if_neg h1]
          simp [KeepParsing, ih]

theorem runSkip_cons (tok : JSONToken) (ts : List JSONToken) (d : Int) :
    runSkip d (tok :: ts)
      = ((if d + skipDelta tok < 0 then ParseResultType.Error
          else if d + skipDelta tok = 0 then .ParserDone else .KeepParsing)
            :: (runSkip (d + skipDelta tok) ts).1,
          (runSkip (d + skipDelta tok) ts).2) := rfl

theorem runSkip_cons_keep (tok : JSONToken) (ts : List JSONToken) (d : Int)
    (h : 1 ≤ d + skipDelta tok) :
    runSkip d (tok :: ts)
      = (.KeepParsing :: (runSkip (d + skipDelta tok) ts).1,
          (runSkip (d + skipDelta tok) ts).2) := by
  rw [runSkip_cons, if_neg (by omega), if_neg (by omega)]

theorem runSkip_append (xs ys : List JSONToken) :
    ∀ d : Int, runSkip d (xs ++ ys)
      = ((runSkip d xs).1 ++ (runSkip (runSkip d xs).2 ys).1,
          (runSkip (runSkip d xs).2 ys).2) := by
  induction xs with
  | nil => intro d; simp [runSkip]
  | cons x xs ih =>
      intro d
      rw [List.cons_append, runSkip_cons, runSkip_cons, ih]
      simp

theorem isScalarTok_delta (tok : JSONToken) (h : isScalarTok tok = true) :
    skipDelta tok = 0 := by
  cases tok <;> simp [isScalarTok] at h <;> rfl

theorem replicate_wrap (n : Nat) (a : ParseResultType) :
    a :: (List.replicate n a ++ [a]) = List.replicate (n + 2) a := by
  rw [show n + 2 = (n + 1) + 1 from rfl, List.replicate_succ, List.replicate_succ']

theorem skipTree_length (s : List JSONToken) (hs : SkipTree s) : 1 ≤ s.length := by
  cases hs <;> simp

theorem skip_run_bounded : ∀ m : Nat,
    (∀ s, SkipTree s → 2 * s.length ≤ m → ∀ d : Int, 1 ≤ d →
      runSkip d s = (List.replicate s.length .KeepParsing, d))
    ∧ (∀ b, SkipSeq b → 2 * b.length + 1 ≤ m → ∀ d : Int, 1 ≤ d →
      runSkip d b = (List.replicate b.length .KeepParsing, d))
    ∧ (∀ b, SkipFields b → 2 * b.length + 1 ≤ m → ∀ d : Int, 1 ≤ d →
      runSkip d b = (List.replicate b.length .KeepParsing, d)) := by
  intro m
  induction m with
  | zero =>
      refine ⟨fun s hs hm => ?_, fun b hb hm => ?_, fun b hb hm => ?_⟩
      · cases hs <;> simp at hm
      · omega
      · omega
  | succ m ih =>
      obtain ⟨ihT, ihS, ihF⟩ := ih
      refine ⟨fun s hs hm => ?_, fun b hb hm => ?_, fun b hb hm => ?_⟩
      · cases hs with
        | scalar tok hsc =>
            intro d hd
            have h0 : d + skipDelta tok = d := by rw [isScalarTok_delta tok hsc]; ring
            rw [runSkip_cons, h0, if_neg (by omega), if_neg (by omega)]
            rfl
        | arr body hb2 =>
            intro d hd
            rw [List.cons_append]
            rw [runSkip_cons_keep .start_array (body ++ [JSONToken.end_array]) d
              (by simp only [skipDelta]; omega)]
            simp only [skipDelta]
            have hlb : 2 * body.length + 1 ≤ m := by
              simp at hm; omega
            rw [runSkip_append, ihS body hb2 hlb (d + 1) (by omega)]
            simp only
            rw [runSkip_cons_keep .end_array [] (d + 1) (by simp only [skipDelta]; omega)]
            simp only [skipDelta, runSkip]
            have hlen : (JSONToken.start_array :: (body ++ [JSONToken.end_array])).length
                = body.length + 2 := by simp
            rw [hlen, ← replicate_wrap]
            congr 1
            omega
        | obj body hb2 =>
            intro d hd
            rw [List.cons_append]
            rw [runSkip_cons_keep .start_object (body ++ [JSONToken.end_object]) d
              (by simp only [skipDelta]; omega)]
            simp only [skipDelta]
            have hlb : 2 * body.length + 1 ≤ m := by
              simp at hm; omega
            rw [runSkip_append, ihF body hb2 hlb (d + 1) (by omega)]
            simp only
            rw [runSkip_cons_keep .end_object [] (d + 1) (by simp only [skipDelta]; omega)]
            simp only [skipDelta, runSkip]
            have hlen : (JSONToken.start_object :: (body ++ [JSONToken.end_object])).length
                = body.length + 2 := by simp
            rw [hlen, ← replicate_wrap]
            congr 1
            omega
      · cases hb with
        | nil => intro d hd; rfl
        | cons s b2 hts hsb =>
            intro d hd
            have hs1 := skipTree_length s hts
            have hbT : 2 * s.length ≤ m := by simp at hm; omega
            have hbS : 2 * b2.length + 1 ≤ m := by simp at hm; omega
            rw [runSkip_append, ihT s hts hbT d hd]
            simp only
            rw [ihS b2 hsb hbS d hd]
            simp only
            rw [← List.replicate_add]
            simp
      · cases hb with
        | nil => intro d hd; rfl
        | cons k s b2 hts hsb =>
            intro d hd
            have hs1 := skipTree_length s hts
            have hbT : 2 * s.length ≤ m := by simp at hm; omega
            have hbF : 2 * b2.length + 1 ≤ m := by simp at hm; omega
            rw [List.cons_append]
            rw [runSkip_cons_keep (.key k) (s ++ b2) d (by simp only [skipDelta]; omega)]
            simp only [skipDelta, add_zero]
            rw [runSkip_append, ihT s hts hbT d hd]
            simp only
            rw [ihF b2 hsb hbF d hd]
            simp only
            rw [← List.replicate_add]
            simp [List.replicate_succ]

/-- C6: for every well-formed balanced token subtree (single scalar, empty or
non-empty object or array, nested mixtures) the continuation built by
SkipNextElement returns KeepParsing on every token except the last and
ParserDone on the last (its depth counter back to zero, so the dispatcher
pops it and the stack depth is restored); fed a lone end_object or end_array
first it returns the malformed-document Error. -/
theorem c6_skip_balanced_subtree :
    (∀ s, SkipTree s → ∀ h : Heap,
      runResults (.skipC 0) h s
        = List.replicate (s.length - 1) .KeepParsing ++ [.ParserDone])
    ∧ (∀ h : Heap, runResults (.skipC 0) h [.end_object] = [.Error])
    ∧ (∀ h : Heap, runResults (.skipC 0) h [.end_array] = [.Error]) := by
  refine ⟨fun s hs h => ?_, fun h => rfl, fun h => rfl⟩
  rw [runResults_skipC]
  cases hs with
  | scalar tok hsc =>
      have h0 : (0 : Int) + skipDelta tok = 0 := by
        rw [isScalarTok_delta tok hsc]; ring
      rw [runSkip_cons, h0, if_neg (by omega), if_pos rfl]
      simp [runSkip]
  | arr body hb =>
      rw [List.cons_append]
      rw [runSkip_cons_keep .start_array (body ++ [JSONToken.end_array]) 0
        (by simp only [skipDelta]; omega)]
      simp only [skipDelta]
      rw [runSkip_append,
        (skip_run_bounded (2 * body.length + 1)).2.1 body hb le_rfl (0 + 1) (by omega)]
      simp only
      rw [runSkip_cons, if_neg (by simp only [skipDelta]; omega),
        if_pos (by simp only [skipDelta]; omega)]
      have hlen : (JSONToken.start_array :: (body ++ [JSONToken.end_array])).length - 1
          = body.length + 1 := by simp
      rw [hlen, List.replicate_succ]
      simp [runSkip]
  | obj body hb =>
      rw [List.cons_append]
      rw [runSkip_cons_keep .start_object (body ++ [JSONToken.end_object]) 0
        (by simp only [skipDelta]; omega)]
      simp only [skipDelta]
      rw [runSkip_append,
        (skip_run_bounded (2 * body.length + 1)).2.2 body hb le_rfl (0 + 1) (by omega)]
      simp only
      rw [runSkip_cons, if_neg (by simp only [skipDelta]; omega),
        if_pos (by simp only [skipDelta]; omega)]
      have hlen : (JSONToken.start_object :: (body ++ [JSONToken.end_object])).length - 1
          = body.length + 1 := by simp
      rw [hlen, List.replicate_succ]
      simp [runSkip]

/-- C6 witness: skipping the subtree start-array, start-object, end-object,
end-array gives KeepParsing three times and then ParserDone. -/
theorem c6_skip_balanced_subtree_witness :
    runResults (.skipC 0) [] [.start_array, .start_object, .end_object, .end_array]
      = [.KeepParsing, .KeepParsing, .KeepParsing, .ParserDone] :=
  c6_skip_balanced_subtree.1 _
    (SkipTree.arr [JSONToken.start_object, JSONToken.end_object]
      (SkipSeq.cons [JSONToken.start_object, JSONToken.end_object] []
        (SkipTree.obj [] SkipFields.nil) SkipSeq.nil)) []

theorem set_append_length (acc : List Val) (x y : Val) :
    (acc ++ [x]).set acc.length y = acc ++ [y] := by
  induction acc with
  | nil => rfl
  | cons a as ih => simp [List.set, ih]

theorem getD_append_length (acc : List Val) (x d : Val) :
    (acc ++ [x]).getD acc.length d = x := by
  induction acc with
  | nil => rfl
  | cons a as ih => simp [ih]

theorem i32_in_range (v : Int) (hlo : -2147483648 ≤ v) (hhi : v ≤ 2147483647) :
    intTokOutOfRange .i32 v = false := by
  simp [intTokOutOfRange, NumTy.intMax, NumTy.intMin]
  omega

theorem listC_item_step (acc : List Val) (v : Int)
    (hlo : -2147483648 ≤ v) (hhi : v ≤ 2147483647) :
    parseTokenAux 3 ⟨[.vlist acc], [.listC 0 [] (.vint 0) scalarItemFactoryI32 false], none⟩
      (.number_integer v)
    = .ok true ⟨[.vlist (acc ++ [.vint v])],
        [.listC 0 [] (.vint 0) scalarItemFactoryI32 false], none⟩ := by
  have hr := i32_in_range v hlo hhi
  simp only [parseTokenAux, JSONParseFunc.step, scalarItemFactoryI32, getList, heapGet,
    getV, heapSet, setV, applyWrite, NewParserRepeatToken, ParserDone, castIntTok, hr,
    Bool.false_eq_true, if_false, List.get?_eq_getElem?, List.getD]
  simp [setV, set_append_length, getD_append_length]

theorem listC_run_items (vs : List Int) :
    ∀ acc : List Val, (∀ v ∈ vs, -2147483648 ≤ v ∧ v ≤ 2147483647) →
    runTokens 3 ⟨[.vlist acc], [.listC 0 [] (.vint 0) scalarItemFactoryI32 false], none⟩
      (vs.map JSONToken.number_integer ++ [.end_array])
    = some ⟨[.vlist (acc ++ vs.map Val.vint)], [], none⟩ := by
  induction vs with
  | nil =>
      intro acc _
      simp [runTokens, parseTokenAux, JSONParseFunc.step, applyWrite, ParserDone]
  | cons v vs ih =>
      intro acc hb
      have hv := hb v (List.mem_cons_self v vs)
      simp only [List.map_cons, List.cons_append, runTokens]
      rw [listC_item_step acc v hv.1 hv.2]
      have hrec := ih (acc ++ [Val.vint v]) (fun w hw => hb w (List.mem_cons_of_mem v hw))
      rw [show (acc ++ [Val.vint v]) ++ List.map Val.vint vs
          = acc ++ Val.vint v :: List.map Val.vint vs from by simp] at hrec
      exact hrec

/-- C7: core::ParseList appends exactly one new default-constructed element
per item in input order (none for an immediately closed array), ends with
ParserDone on end_array, and replays each item token into the freshly built
item continuation within the same ParseToken call (the element value is
already written when the call returns); a first token that is not
start_array fails without appending anything. -/
theorem c7_list_appends_per_item :
    (∀ vs : List Int, (∀ v ∈ vs, -2147483648 ≤ v ∧ v ≤ 2147483647) →
      runTokens 3 ⟨[.vlist []], [.listC 0 [] (.vint 0) scalarItemFactoryI32 true], none⟩
        (.start_array :: vs.map JSONToken.number_integer ++ [.end_array])
      = some ⟨[.vlist (vs.map Val.vint)], [], none⟩)
    ∧ (∀ tok : JSONToken, tok.type ≠ .start_array →
        parseTokenAux 2 ⟨[.vlist []], [.listC 0 [] (.vint 0) scalarItemFactoryI32 true],
            none⟩ tok
        = .ok false ⟨[.vlist []], [.listC 0 [] (.vint 0) scalarItemFactoryI32 false],
            some "Bad JSON item: No open array token for list"⟩) := by
  constructor
  · intro vs hb
    have h1 : parseTokenAux 3
        ⟨[.vlist []], [.listC 0 [] (.vint 0) scalarItemFactoryI32 true], none⟩
        .start_array
        = .ok true ⟨[.vlist []], [.listC 0 [] (.vint 0) scalarItemFactoryI32 false],
            none⟩ := by
      simp [parseTokenAux, JSONParseFunc.step, applyWrite, KeepParsing]
    rw [List.cons_append, runTokens, h1]
    simpa using listC_run_items vs [] hb
  · intro tok htok
    cases tok <;> simp [parseTokenAux, JSONParseFunc.step, applyWrite, ParseError]
    simp [JSONToken.type] at htok

/-- C7 witness: the two-item stream appends exactly the two elements in
input order and ends with the list continuation popped. -/
theorem c7_list_appends_per_item_witness :
    runTokens 3 ⟨[.vlist []], [.listC 0 [] (.vint 0) scalarItemFactoryI32 true], none⟩
      [.start_array, .number_integer 1, .number_integer 2, .end_array]
    = some ⟨[.vlist [.vint 1, .vint 2]], [], none⟩ :=
  c7_list_appends_per_item.1 [1, 2] (by decide)

/-- C8 counterexample: the claim says the registered error handler is
invoked with msg and ParseJson returns that message.  A handler returning
Fail with message Sending out an error (the unit test message) makes the
dispatcher invoke the recorder with the DECORATED string Bad JSON item:
Sending out an error, and ParseJson returns the decorated string, which
differs from msg; the two trailing tokens after the failure are never
delivered. -/
theorem c8_handler_message_decorated :
    ParseJson 2 (Val.vobj []) errorKeyHandler
      [.start_object, .key "error", .null, .null]
      = some (.error "Bad JSON item: Sending out an error", [Val.vobj []])
    ∧ "Bad JSON item: Sending out an error" ≠ "Sending out an error" :=
  ⟨rfl, by decide⟩

/-- C8 (amended): whenever the top continuation returns an Error result with
message msg, ParseToken invokes the registered error handler with the
decorated message Bad JSON item: plus msg and returns false, so the reader
delivers no further tokens (the run result does not depend on the remaining
token list), and the top-level ParseJson surfaces exactly the recorded
message as its error value. -/
theorem c8_first_failure_stops :
    (∀ (fuel : Nat) (st : MState) (tok : JSONToken) (ts : List JSONToken)
        (c : JSONParseFunc) (rest : List JSONParseFunc) (msg : String),
      st.stack = c :: rest →
      (c.step tok st.heap).1.type = .Error →
      (c.step tok st.heap).1.error = some msg →
      ∃ st2, runTokens (fuel + 1) st (tok :: ts) = some st2
        ∧ st2.err = some ("Bad JSON item: " ++ msg))
    ∧ (∀ (fuel : Nat) (obj : Val) (handler : JSONObjectParserM) (toks : List JSONToken)
        (st2 : MState) (e : String),
      runTokens fuel ⟨[obj], [.objC obj handler true], none⟩ toks = some st2 →
      st2.err = some e →
      ParseJson fuel obj handler toks = some (.error e, st2.heap)) := by
  constructor
  · intro fuel st tok ts c rest msg hstk herr hmsg
    obtain ⟨heap, stack, err⟩ := st
    simp only at hstk
    subst hstk
    rcases hout : c.step tok heap with ⟨res, c2, h2, req⟩
    simp only at herr hmsg
    rw [hout] at herr hmsg
    simp only at herr hmsg
    refine ⟨⟨(applyWrite rest h2 req).2, c2 :: (applyWrite rest h2 req).1,
      some ("Bad JSON item: " ++ msg)⟩, ?_, rfl⟩
    simp only [runTokens, parseTokenAux, hout]
    rw [herr]
    simp [hmsg]
  · intro fuel obj handler toks st2 e hrun herr2
    unfold ParseJson
    rw [hrun]
    simp only [herr2]

/-- C8 witness: the amended theorem applied to the object continuation of
the unit test records the decorated first-failure message and stops. -/
theorem c8_first_failure_stops_witness :
    ∃ st2, runTokens 2
        ⟨[Val.vobj []], [.objC (Val.vobj []) errorKeyHandler false], none⟩
        [.key "error", .null] = some st2
      ∧ st2.err = some ("Bad JSON item: " ++ "Sending out an error") :=
  c8_first_failure_stops.1 1
    ⟨[Val.vobj []], [.objC (Val.vobj []) errorKeyHandler false], none⟩
    (.key "error") [.null] (.objC (Val.vobj []) errorKeyHandler false) [] "Sending out an error"
    rfl rfl rfl

theorem selfReplay_diverges (fuel : Nat) :
    ∀ (st : MState) (tok : JSONToken), st.stack.head? = some .selfReplayC →
      parseTokenAux fuel st tok = .outOfFuel := by
  induction fuel with
  | zero => intro st tok _; rfl
  | succ fuel ih =>
      intro st tok hhead
      obtain ⟨heap, stack, err⟩ := st
      simp only at hhead
      rcases stack with _ | ⟨c, rest⟩
      · simp at hhead
      · simp at hhead
        subst hhead
        simp only [parseTokenAux, JSONParseFunc.step, applyWrite, NewParserRepeatToken]
        exact ih ⟨heap, .selfReplayC :: .selfReplayC :: rest, err⟩ tok rfl

/-- C4 counterexample: the claim says the replay recursion always
terminates, the self-replay case being guarded.  The code has no guard: with
a continuation that answers NewParser_ReplayCurrent carrying itself on the
stack, ParseToken runs out of any amount of fuel on any token, i.e. the C++
recursion never returns. -/
theorem c4_self_replay_counterexample :
    ¬ Terminates ⟨[], [.selfReplayC], none⟩ .null := by
  rintro ⟨fuel, st2, b, hok⟩
  rw [selfReplay_diverges fuel ⟨[], [.selfReplayC], none⟩ .null rfl] at hok
  cases hok

/-- C4 (amended): on a NewParser_ReplayCurrent result the dispatcher pushes
the new continuation and redelivers the very same token to it within the
same ParseToken call; the recursion terminates whenever the pushed
continuation is a freshly built library continuation, because no fresh
combinator continuation ever answers anything but KeepParsing, ParserDone or
Error on its first token; but nothing guards a continuation that replays
itself (see the counterexample). -/
theorem c4_replay_same_token (fuel : Nat) (st : MState) (tok : JSONToken)
    (c : JSONParseFunc) (rest : List JSONParseFunc)
    (res : ParseResult) (c2 : JSONParseFunc) (h2 : Heap) (req : Option (Tgt × Val))
    (p : JSONParseFunc)
    (hstk : st.stack = c :: rest)
    (hout : c.step tok st.heap = (res, c2, h2, req))
    (hty : res.type = .NewParser_ReplayCurrent)
    (hp : res.newParser = some p) :
    (parseTokenAux (fuel + 1) st tok
        = parseTokenAux fuel
            ⟨(applyWrite rest h2 req).2, p :: c2 :: (applyWrite rest h2 req).1, st.err⟩ tok)
    ∧ (∀ (q : JSONParseFunc), IsFresh q → ∀ (tok2 : JSONToken) (h : Heap),
        (q.step tok2 h).1.type = .KeepParsing ∨ (q.step tok2 h).1.type = .ParserDone
          ∨ (q.step tok2 h).1.type = .Error)
    ∧ (IsFresh p → Terminates st tok) := by
  have hstepAll : ∀ f : Nat, parseTokenAux (f + 1) st tok
      = parseTokenAux f
          ⟨(applyWrite rest h2 req).2, p :: c2 :: (applyWrite rest h2 req).1, st.err⟩ tok := by
    intro f
    obtain ⟨heap, stack, err⟩ := st
    simp only at hstk hout
    subst hstk
    simp only [parseTokenAux, hout]
    rw [hty, hp]
  have hfresh : ∀ (q : JSONParseFunc), IsFresh q → ∀ (tok2 : JSONToken) (h : Heap),
      (q.step tok2 h).1.type = .KeepParsing ∨ (q.step tok2 h).1.type = .ParserDone
        ∨ (q.step tok2 h).1.type = .Error := by
    intro q hq tok2 h
    cases q with
    | parseStringC a =>
        cases tok2 <;> simp [JSONParseFunc.step, ParserDone, ParseError]
    | parseBoolC a =>
        cases tok2 <;> simp [JSONParseFunc.step, ParserDone, ParseError]
    | parseNumberC t a =>
        cases tok2 <;> simp [JSONParseFunc.step, ParserDone, ParseError] <;>
          first
            | (split <;> simp [ParserDone, ParseError])
            | (split <;> [skip; split] <;> simp [ParserDone, ParseError])
    | skipC d =>
        simp only [IsFresh] at hq
        subst hq
        simp only [JSONParseFunc.step]
        by_cases h0 : (0 : Int) + skipDelta tok2 < 0
        · rw [if_pos h0]; simp [ParseError]
        · rw [if_neg h0]
          by_cases h1 : (0 : Int) + skipDelta tok2 = 0
          · rw [if_pos h1]; simp [ParserDone]
          · rw [if_neg h1]; simp [KeepParsing]
    | objC obj handler first =>
        simp only [IsFresh] at hq
        subst hq
        cases tok2 <;> simp [JSONParseFunc.step, KeepParsing, ParseError]
    | listC slot path dflt factory first =>
        simp only [IsFresh] at hq
        subst hq
        cases tok2 <;> simp [JSONParseFunc.step, KeepParsing, ParseError]
    | selfReplayC => simp [IsFresh] at hq
  refine ⟨hstepAll fuel, hfresh, fun hpf => ?_⟩
  rcases hq : p.step tok (applyWrite rest h2 req).2 with ⟨res2, p2, h4, req2⟩
  have hcases := hfresh p hpf tok (applyWrite rest h2 req).2
  rw [hq] at hcases
  simp only at hcases
  rcases hcases with hk | hk | hk <;>
    exact ⟨2, _, _, by rw [hstepAll 1]; simp only [parseTokenAux, hq]; rw [hk]⟩

/-- C4 witness: a list continuation replaying an item token into a freshly
built number continuation terminates. -/
theorem c4_replay_same_token_witness :
    Terminates ⟨[.vlist []], [.listC 0 [] (.vint 0) scalarItemFactoryI32 false], none⟩
      (.number_integer 5) :=
  (c4_replay_same_token 0
    ⟨[.vlist []], [.listC 0 [] (.vint 0) scalarItemFactoryI32 false], none⟩
    (.number_integer 5)
    (.listC 0 [] (.vint 0) scalarItemFactoryI32 false) []
    (NewParserRepeatToken (.parseNumberC .i32 (.heap 0 [.idx 0])))
    (.listC 0 [] (.vint 0) scalarItemFactoryI32 false) [.vlist [.vint 0]] none
    (.parseNumberC .i32 (.heap 0 [.idx 0]))
    rfl rfl rfl rfl).2.2 trivial

theorem owned_writeBelow (p : List PathElem) (v : Val) (c : JSONParseFunc) :
    owned (writeBelow p v c) = owned c := by
  cases c <;> rfl

theorem WFC_writeBelow (p : List PathElem) (v : Val) (c : JSONParseFunc) (hc : WFC c) :
    WFC (writeBelow p v c) := by
  cases hc with
  | pobj obj handler first hh => exact WFC.pobj _ handler first hh
  | pstr a => exact WFC.pstr a
  | pbool a => exact WFC.pbool a
  | pnum t a => exact WFC.pnum t a
  | pskip d hd => exact WFC.pskip d hd
  | plist slot path dflt factory first h1 h2 => exact WFC.plist slot path dflt factory first h1 h2

theorem applyWrite_stack (rest : List JSONParseFunc) (h : Heap) (req : Option (Tgt × Val)) :
    (applyWrite rest h req).1 = rest
    ∨ ∃ p v b bs, rest = b :: bs ∧ (applyWrite rest h req).1 = writeBelow p v b :: bs := by
  rcases req with _ | ⟨tgt, v⟩
  · left; rfl
  · cases tgt with
    | heap slot path => left; rfl
    | below path =>
        cases rest with
        | nil => left; rfl
        | cons b bs => right; exact ⟨path, v, b, bs, rfl, rfl⟩

theorem applyWrite_owned (rest : List JSONParseFunc) (h : Heap) (req : Option (Tgt × Val)) :
    ((applyWrite rest h req).1.map owned) = rest.map owned := by
  rcases applyWrite_stack rest h req with heq | ⟨p, v, b, bs, hr, heq⟩
  · rw [heq]
  · rw [heq, hr]
    simp [owned_writeBelow]

theorem applyWrite_WFC (rest : List JSONParseFunc) (h : Heap) (req : Option (Tgt × Val))
    (hw : ∀ x ∈ rest, WFC x) : ∀ x ∈ (applyWrite rest h req).1, WFC x := by
  rcases applyWrite_stack rest h req with heq | ⟨p, v, b, bs, hr, heq⟩
  · rw [heq]; exact hw
  · rw [heq]
    intro x hx
    rcases List.mem_cons.mp hx with hx | hx
    · subst hx
      exact WFC_writeBelow p v b (hw b (hr ▸ List.mem_cons_self b bs))
    · exact hw x (hr ▸ List.mem_cons_of_mem b hx)

theorem applyWrite_tail_owned (rest : List JSONParseFunc) (h : Heap) (req : Option (Tgt × Val))
    (hw : ∀ x ∈ rest, 1 ≤ owned x) : ∀ x ∈ (applyWrite rest h req).1, 1 ≤ owned x := by
  rcases applyWrite_stack rest h req with heq | ⟨p, v, b, bs, hr, heq⟩
  · rw [heq]; exact hw
  · rw [heq]
    intro x hx
    rcases List.mem_cons.mp hx with hx | hx
    · subst hx
      rw [owned_writeBelow]
      exact hw b (hr ▸ List.mem_cons_self b bs)
    · exact hw x (hr ▸ List.mem_cons_of_mem b hx)

theorem applyWrite_stackOwned (rest : List JSONParseFunc) (h : Heap) (req : Option (Tgt × Val)) :
    stackOwned (applyWrite rest h req).1 = stackOwned rest := by
  unfold stackOwned
  rw [applyWrite_owned]

theorem IsFresh_owned (c : JSONParseFunc) (hc : IsFresh c) : owned c = 0 := by
  cases c <;> simp [IsFresh, owned] at hc ⊢ <;> simp [hc]

theorem step_cases (c : JSONParseFunc) (hc : WFC c) (tok : JSONToken) (h : Heap) :
    ((c.step tok h).1.type = .KeepParsing ∧ WFC (c.step tok h).2.1
        ∧ owned (c.step tok h).2.1 = owned c + skipDelta tok)
    ∨ ((c.step tok h).1.type = .ParserDone ∧ owned c + skipDelta tok = 0)
    ∨ (c.step tok h).1.type = .Error
    ∨ ((c.step tok h).1.type = .NewParser ∧ WFC (c.step tok h).2.1
        ∧ owned (c.step tok h).2.1 = owned c + skipDelta tok
        ∧ 1 ≤ owned (c.step tok h).2.1
        ∧ ∃ pc, (c.step tok h).1.newParser = some pc ∧ IsFresh pc ∧ WFC pc)
    ∨ ((c.step tok h).1.type = .NewParser_ReplayCurrent ∧ WFC (c.step tok h).2.1
        ∧ owned (c.step tok h).2.1 = owned c
        ∧ 1 ≤ owned (c.step tok h).2.1
        ∧ ∃ pc, (c.step tok h).1.newParser = some pc ∧ IsFresh pc ∧ WFC pc) := by
  cases hc with
  | pstr a =>
      cases tok <;>
        simp [JSONParseFunc.step, ParserDone, ParseError, owned, skipDelta]
  | pbool a =>
      cases tok <;>
        simp [JSONParseFunc.step, ParserDone, ParseError, owned, skipDelta]
  | pnum t a =>
      cases tok with
      | number_integer i =>
          simp only [JSONParseFunc.step]
          by_cases hr : intTokOutOfRange t i
          · rw [if_pos hr]; simp [ParseError]
          · rw [if_neg hr]; simp [ParserDone, owned, skipDelta]
      | number_unsigned u =>
          simp only [JSONParseFunc.step]
          by_cases hr : uintTokOutOfRange t u
          · rw [if_pos hr]; simp [ParseError]
          · rw [if_neg hr]; simp [ParserDone, owned, skipDelta]
      | number_float q =>
          simp only [JSONParseFunc.step]
          by_cases hi : t.isIntegral
          · rw [if_pos hi]; simp [ParseError]
          · rw [if_neg hi]
            by_cases hq : q > fltMax t ∨ q < -(fltMax t)
            · rw [if_pos hq]; simp [ParseError]
            · rw [if_neg hq]; simp [ParserDone, owned, skipDelta]
      | string s =>
          simp only [JSONParseFunc.step]
          rcases hfc : fromCharsAt t s with _ | w
          · simp [hfc, ParseError]
          · simp [hfc, ParserDone, owned, skipDelta]
      | null => simp [JSONParseFunc.step, ParseError]
      | boolean b => simp [JSONParseFunc.step, ParseError]
      | start_object => simp [JSONParseFunc.step, ParseError]
      | end_object => simp [JSONParseFunc.step, ParseError]
      | start_array => simp [JSONParseFunc.step, ParseError]
      | end_array => simp [JSONParseFunc.step, ParseError]
      | key k => simp [JSONParseFunc.step, ParseError]
      | parse_error => simp [JSONParseFunc.step, ParseError]
  | pskip d hd =>
      simp only [JSONParseFunc.step]
      by_cases h0 : d + skipDelta tok < 0
      · rw [if_pos h0]
        simp [ParseError]
      · rw [if_neg h0]
        by_cases h1 : d + skipDelta tok = 0
        · rw [if_pos h1]
          simp [ParserDone, owned]
          omega
        · rw [if_neg h1]
          refine Or.inl ⟨by simp [KeepParsing], WFC.pskip _ (by omega), by simp [owned]⟩
  | pobj obj handler first hh =>
      cases first with
      | true =>
          cases tok <;>
            simp [JSONParseFunc.step, KeepParsing, ParseError, owned, skipDelta] <;>
            exact WFC.pobj _ handler false hh
      | false =>
          cases tok with
          | end_object =>
              simp [JSONParseFunc.step, ParserDone, owned, skipDelta]
          | key k =>
              obtain ⟨r0, hnd, hsome, hfr, hwf⟩ := hh k obj
              rcases htype : (handler k obj).1.type with _ | _ | _ | _ | _
              · refine Or.inl ⟨?_, WFC.pobj _ handler false hh, ?_⟩ <;>
                  simp [JSONParseFunc.step, htype, owned, skipDelta]
              · exact absurd htype hnd
              · rcases Option.isSome_iff_exists.mp (hsome (Or.inl htype)) with ⟨pc, hpc⟩
                refine Or.inr (Or.inr (Or.inr (Or.inl
                  ⟨?_, WFC.pobj _ handler false hh, ?_, ?_, pc, ?_, hfr pc hpc, hwf pc hpc⟩)))
                  <;> simp [JSONParseFunc.step, htype, owned, skipDelta, hpc]
              · rcases Option.isSome_iff_exists.mp (hsome (Or.inr htype)) with ⟨pc, hpc⟩
                refine Or.inr (Or.inr (Or.inr (Or.inr
                  ⟨?_, WFC.pobj _ handler false hh, ?_, ?_, pc, ?_, hfr pc hpc, hwf pc hpc⟩)))
                  <;> simp [JSONParseFunc.step, htype, owned, skipDelta, hpc]
              · refine Or.inr (Or.inr (Or.inl ?_))
                simp [JSONParseFunc.step, htype]
          | null =>
              simp [JSONParseFunc.step, ParseError]
          | boolean b =>
              simp [JSONParseFunc.step, ParseError]
          | number_integer i =>
              simp [JSONParseFunc.step, ParseError]
          | number_unsigned u =>
              simp [JSONParseFunc.step, ParseError]
          | number_float q =>
              simp [JSONParseFunc.step, ParseError]
          | string s =>
              simp [JSONParseFunc.step, ParseError]
          | start_object =>
              simp [JSONParseFunc.step, ParseError]
          | start_array =>
              simp [JSONParseFunc.step, ParseError]
          | end_array =>
              simp [JSONParseFunc.step, ParseError]
          | parse_error =>
              simp [JSONParseFunc.step, ParseError]
  | plist slot path dflt factory first h1 h2 =>
      cases first with
      | true =>
          cases tok <;>
            simp [JSONParseFunc.step, KeepParsing, ParseError, owned, skipDelta] <;>
            exact WFC.plist slot path dflt factory false h1 h2
      | false =>
          cases tok with
          | end_array =>
              simp [JSONParseFunc.step, ParserDone, owned, skipDelta]
          | null =>
              refine Or.inr (Or.inr (Or.inr (Or.inr
                ⟨?_, WFC.plist slot path dflt factory false h1 h2, ?_, ?_,
                  factory slot (path ++ [PathElem.idx (getList h slot path).length])
                    (heapSet h slot path (.vlist (getList h slot path ++ [dflt]))), ?_,
                  h1 _ _ _, h2 _ _ _⟩))) <;>
                simp [JSONParseFunc.step, NewParserRepeatToken, owned, skipDelta]
          | boolean b =>
              refine Or.inr (Or.inr (Or.inr (Or.inr
                ⟨?_, WFC.plist slot path dflt factory false h1 h2, ?_, ?_,
                  factory slot (path ++ [PathElem.idx (getList h slot path).length])
                    (heapSet h slot path (.vlist (getList h slot path ++ [dflt]))), ?_,
                  h1 _ _ _, h2 _ _ _⟩))) <;>
                simp [JSONParseFunc.step, NewParserRepeatToken, owned, skipDelta]
          | number_integer i =>
              refine Or.inr (Or.inr (Or.inr (Or.inr
                ⟨?_, WFC.plist slot path dflt factory false h1 h2, ?_, ?_,
                  factory slot (path ++ [PathElem.idx (getList h slot path).length])
                    (heapSet h slot path (.vlist (getList h slot path ++ [dflt]))), ?_,
                  h1 _ _ _, h2 _ _ _⟩))) <;>
                simp [JSONParseFunc.step, NewParserRepeatToken, owned, skipDelta]
          | number_unsigned u =>
              refine Or.inr (Or.inr (Or.inr (Or.inr
                ⟨?_, WFC.plist slot path dflt factory false h1 h2, ?_, ?_,
                  factory slot (path ++ [PathElem.idx (getList h slot path).length])
                    (heapSet h slot path (.vlist (getList h slot path ++ [dflt]))), ?_,
                  h1 _ _ _, h2 _ _ _⟩))) <;>
                simp [JSONParseFunc.step, NewParserRepeatToken, owned, skipDelta]
          | number_float q =>
              refine Or.inr (Or.inr (Or.inr (Or.inr
                ⟨?_, WFC.plist slot path dflt factory false h1 h2, ?_, ?_,
                  factory slot (path ++ [PathElem.idx (getList h slot path).length])
                    (heapSet h slot path (.vlist (getList h slot path ++ [dflt]))), ?_,
                  h1 _ _ _, h2 _ _ _⟩))) <;>
                simp [JSONParseFunc.step, NewParserRepeatToken, owned, skipDelta]
          | string s =>
              refine Or.inr (Or.inr (Or.inr (Or.inr
                ⟨?_, WFC.plist slot path dflt factory false h1 h2, ?_, ?_,
                  factory slot (path ++ [PathElem.idx (getList h slot path).length])
                    (heapSet h slot path (.vlist (getList h slot path ++ [dflt]))), ?_,
                  h1 _ _ _, h2 _ _ _⟩))) <;>
                simp [JSONParseFunc.step, NewParserRepeatToken, owned, skipDelta]
          | start_object =>
              refine Or.inr (Or.inr (Or.inr (Or.inr
                ⟨?_, WFC.plist slot path dflt factory false h1 h2, ?_, ?_,
                  factory slot (path ++ [PathElem.idx (getList h slot path).length])
                    (heapSet h slot path (.vlist (getList h slot path ++ [dflt]))), ?_,
                  h1 _ _ _, h2 _ _ _⟩))) <;>
                simp [JSONParseFunc.step, NewParserRepeatToken, owned, skipDelta]
          | start_array =>
              refine Or.inr (Or.inr (Or.inr (Or.inr
                ⟨?_, WFC.plist slot path dflt factory false h1 h2, ?_, ?_,
                  factory slot (path ++ [PathElem.idx (getList h slot path).length])
                    (heapSet h slot path (.vlist (getList h slot path ++ [dflt]))), ?_,
                  h1 _ _ _, h2 _ _ _⟩))) <;>
                simp [JSONParseFunc.step, NewParserRepeatToken, owned, skipDelta]
          | end_object =>
              refine Or.inr (Or.inr (Or.inr (Or.inr
                ⟨?_, WFC.plist slot path dflt factory false h1 h2, ?_, ?_,
                  factory slot (path ++ [PathElem.idx (getList h slot path).length])
                    (heapSet h slot path (.vlist (getList h slot path ++ [dflt]))), ?_,
                  h1 _ _ _, h2 _ _ _⟩))) <;>
                simp [JSONParseFunc.step, NewParserRepeatToken, owned, skipDelta]
          | key k =>
              refine Or.inr (Or.inr (Or.inr (Or.inr
                ⟨?_, WFC.plist slot path dflt factory false h1 h2, ?_, ?_,
                  factory slot (path ++ [PathElem.idx (getList h slot path).length])
                    (heapSet h slot path (.vlist (getList h slot path ++ [dflt]))), ?_,
                  h1 _ _ _, h2 _ _ _⟩))) <;>
                simp [JSONParseFunc.step, NewParserRepeatToken, owned, skipDelta]
          | parse_error =>
              refine Or.inr (Or.inr (Or.inr (Or.inr
                ⟨?_, WFC.plist slot path dflt factory false h1 h2, ?_, ?_,
                  factory slot (path ++ [PathElem.idx (getList h slot path).length])
                    (heapSet h slot path (.vlist (getList h slot path ++ [dflt]))), ?_,
                  h1 _ _ _, h2 _ _ _⟩))) <;>
                simp [JSONParseFunc.step, NewParserRepeatToken, owned, skipDelta]

theorem stackOwned_cons (c : JSONParseFunc) (l : List JSONParseFunc) :
    stackOwned (c :: l) = owned c + stackOwned l := by
  simp [stackOwned]

theorem parseToken_depth_inv (fuel : Nat) :
    ∀ (st : MState) (tok : JSONToken) (st2 : MState),
      parseTokenAux fuel st tok = .ok true st2 →
      StackOK st.stack →
      StackOK st2.stack ∧ stackOwned st2.stack = stackOwned st.stack + skipDelta tok := by
  induction fuel with
  | zero =>
      intro st tok st2 hok
      simp [parseTokenAux] at hok
  | succ fuel ih =>
      intro st tok st2 hok hwf
      obtain ⟨heap, stack, err⟩ := st
      rcases stack with _ | ⟨c, rest⟩
      · simp [parseTokenAux] at hok
      · have hcWF : WFC c := hwf.1 c (List.mem_cons_self _ _)
        have hrestWF : ∀ x ∈ rest, WFC x := fun x hx => hwf.1 x (List.mem_cons_of_mem _ hx)
        have hrestOwned : ∀ x ∈ rest, 1 ≤ owned x := by
          intro x hx
          exact hwf.2 x (by simpa using hx)
        rcases hout : c.step tok heap with ⟨res, c2, h2, req⟩
        have hsc := step_cases c hcWF tok heap
        rw [hout] at hsc
        simp only at hsc hok
        rw [show parseTokenAux (fuel + 1) ⟨heap, c :: rest, err⟩ tok
            = (match res.type with
              | .KeepParsing =>
                  StepOut.ok true ⟨(applyWrite rest h2 req).2,
                    c2 :: (applyWrite rest h2 req).1, err⟩
              | .ParserDone =>
                  StepOut.ok true ⟨(applyWrite rest h2 req).2, (applyWrite rest h2 req).1, err⟩
              | .Error =>
                  StepOut.ok false ⟨(applyWrite rest h2 req).2,
                    c2 :: (applyWrite rest h2 req).1,
                    some ("Bad JSON item: " ++ res.error.getD "")⟩
              | .NewParser =>
                  match res.newParser with
                  | some p => StepOut.ok true ⟨(applyWrite rest h2 req).2,
                      p :: c2 :: (applyWrite rest h2 req).1, err⟩
                  | none => StepOut.stuck
              | .NewParser_ReplayCurrent =>
                  match res.newParser with
                  | some p => parseTokenAux fuel ⟨(applyWrite rest h2 req).2,
                      p :: c2 :: (applyWrite rest h2 req).1, err⟩ tok
                  | none => StepOut.stuck) from by
          simp only [parseTokenAux, hout]] at hok
        rcases hsc with ⟨hty, hc2, ho⟩ | ⟨hty, hsum⟩ | hty
          | ⟨hty, hc2, hoeq, hge, pc, hpc, hpcf, hpcw⟩
          | ⟨hty, hc2, hoeq, hge, pc, hpc, hpcf, hpcw⟩
        · rw [hty] at hok
          cases hok
          refine ⟨⟨?_, ?_⟩, ?_⟩
          · intro x hx
            rcases List.mem_cons.mp hx with hx | hx
            · subst hx; exact hc2
            · exact applyWrite_WFC rest h2 req hrestWF x hx
          · intro x hx
            simp only [List.tail_cons] at hx
            exact applyWrite_tail_owned rest h2 req hrestOwned x hx
          · rw [stackOwned_cons, stackOwned_cons, applyWrite_stackOwned, ho]
            ring
        · rw [hty] at hok
          cases hok
          refine ⟨⟨?_, ?_⟩, ?_⟩
          · exact applyWrite_WFC rest h2 req hrestWF
          · intro x hx
            exact applyWrite_tail_owned rest h2 req hrestOwned x (List.mem_of_mem_tail hx)
          · rw [applyWrite_stackOwned, stackOwned_cons]
            omega
        · rw [hty] at hok
          cases hok
        · rw [hty] at hok
          rw [hpc] at hok
          cases hok
          refine ⟨⟨?_, ?_⟩, ?_⟩
          · intro x hx
            rcases List.mem_cons.mp hx with hx | hx
            · subst hx; exact hpcw
            · rcases List.mem_cons.mp hx with hx | hx
              · subst hx; exact hc2
              · exact applyWrite_WFC rest h2 req hrestWF x hx
          · intro x hx
            simp only [List.tail_cons] at hx
            rcases List.mem_cons.mp hx with hx | hx
            · subst hx; exact hge.trans_eq rfl
            · exact applyWrite_tail_owned rest h2 req hrestOwned x hx
          · rw [stackOwned_cons, stackOwned_cons, stackOwned_cons, applyWrite_stackOwned,
              IsFresh_owned pc hpcf, hoeq]
            ring
        · rw [hty] at hok
          rw [hpc] at hok
          have hinner := ih ⟨(applyWrite rest h2 req).2,
            pc :: c2 :: (applyWrite rest h2 req).1, err⟩ tok st2 hok ?_
          · refine ⟨hinner.1, ?_⟩
            rw [hinner.2]
            simp only [stackOwned_cons, applyWrite_stackOwned,
              IsFresh_owned pc hpcf, hoeq]
            ring
          · refine ⟨?_, ?_⟩
            · intro x hx
              rcases List.mem_cons.mp hx with hx | hx
              · subst hx; exact hpcw
              · rcases List.mem_cons.mp hx with hx | hx
                · subst hx; exact hc2
                · exact applyWrite_WFC rest h2 req hrestWF x hx
            · intro x hx
              simp only [List.tail_cons] at hx
              rcases List.mem_cons.mp hx with hx | hx
              · subst hx; exact hge
              · exact applyWrite_tail_owned rest h2 req hrestOwned x hx

theorem delivers_inv (fuel : Nat) (toks : List JSONToken) :
    ∀ (st st2 : MState), DeliversTo fuel st toks st2 → StackOK st.stack →
      StackOK st2.stack ∧ stackOwned st2.stack = stackOwned st.stack + nesting toks := by
  induction toks with
  | nil =>
      intro st st2 h hs
      simp only [DeliversTo] at h
      subst h
      exact ⟨hs, by simp [nesting]⟩
  | cons tok ts ih =>
      intro st st2 h hs
      obtain ⟨stm, hok, hrest⟩ := h
      have h1 := parseToken_depth_inv fuel st tok stm hok hs
      have h2 := ih stm st2 hrest h1.1
      refine ⟨h2.1, ?_⟩
      rw [h2.2, h1.2]
      simp [nesting]
      ring

theorem owned_nonneg (c : JSONParseFunc) (hc : WFC c) : 0 ≤ owned c := by
  cases hc with
  | pskip d hd => exact hd
  | pobj obj handler first hh => cases first <;> simp [owned]
  | plist slot path dflt factory first h1 h2 => cases first <;> simp [owned]
  | pstr a => simp [owned]
  | pbool a => simp [owned]
  | pnum t a => simp [owned]

theorem stackOwned_ge_len (s : List JSONParseFunc) (h : ∀ c ∈ s, 1 ≤ owned c) :
    (s.length : Int) ≤ stackOwned s := by
  induction s with
  | nil => simp [stackOwned]
  | cons c cs ih =>
      rw [stackOwned_cons]
      have h1 := h c (List.mem_cons_self _ _)
      have h2 := ih (fun x hx => h x (List.mem_cons_of_mem _ hx))
      simp only [List.length_cons]
      push_cast
      omega

theorem stack_len_le (s : List JSONParseFunc) (hWF : ∀ c ∈ s, WFC c)
    (htail : ∀ c ∈ s.tail, 1 ≤ owned c) : (s.length : Int) ≤ stackOwned s + 1 := by
  cases s with
  | nil => simp [stackOwned]
  | cons c cs =>
      rw [stackOwned_cons]
      have h0 := owned_nonneg c (hWF c (List.mem_cons_self _ _))
      have h2 := stackOwned_ge_len cs (by simpa using htail)
      simp only [List.length_cons]
      push_cast
      omega

/-- C5 (amended): during an in-progress parse built from the library
combinators (well-formed key handlers), after each delivered token the total
number of opens owned by the stacked continuations equals the structural
nesting depth of the tokens consumed so far, the stack depth is bounded by
that nesting depth plus one (the plus one being a pending value continuation
deferred by a key), and the stack is non-empty whenever some structure is
still open. -/
theorem c5_stack_depth (fuel : Nat) (obj : Val) (handler : JSONObjectParserM)
    (toks : List JSONToken) (st2 : MState)
    (hh : ∀ k x, WFR (handler k x).1)
    (hrun : DeliversTo fuel ⟨[obj], [.objC obj handler true], none⟩ toks st2) :
    stackOwned st2.stack = nesting toks
    ∧ (st2.stack.length : Int) ≤ nesting toks + 1
    ∧ (0 < nesting toks → st2.stack ≠ []) := by
  have hok : StackOK [JSONParseFunc.objC obj handler true] := by
    constructor
    · intro c hc
      simp at hc
      subst hc
      exact WFC.pobj obj handler true hh
    · intro c hc
      simp at hc
  have h := delivers_inv fuel toks ⟨[obj], [.objC obj handler true], none⟩ st2 hrun hok
  have hbase : stackOwned [JSONParseFunc.objC obj handler true] = 0 := by
    simp [stackOwned, owned]
  rw [hbase] at h
  have hsum : stackOwned st2.stack = nesting toks := by rw [h.2]; ring
  refine ⟨hsum, ?_, ?_⟩
  · rw [← hsum]
    exact stack_len_le st2.stack h.1.1 h.1.2
  · intro hpos hemp
    rw [hemp] at hsum
    simp [stackOwned] at hsum
    omega

/-- C5 counterexample: after delivering start_object and key a (the handler
defers a string continuation), the stack holds two continuations while the
structural nesting depth of the consumed tokens is one, so depth does not
equal nesting as the claim states. -/
theorem c5_depth_counterexample :
    (runTokens 2 ⟨[Val.vobj [("a", .vstr ""), ("b", .vstr "")]],
        [.objC (Val.vobj [("a", .vstr ""), ("b", .vstr "")]) twoFieldHandler true], none⟩
      [.start_object, .key "a"]).map (fun st => (st.stack.length : Int)) = some 2
    ∧ nesting [.start_object, .key "a"] = 1
    ∧ (2 : Int) ≠ 1 :=
  ⟨rfl, rfl, by decide⟩

theorem WFR_NewParser_fresh (c : JSONParseFunc) (h1 : IsFresh c) (h2 : WFC c) :
    WFR (NewParser c) :=
  WFR.mk _ (by simp [NewParser])
    (fun _ => by simp [NewParser])
    (fun p hp => by simp [NewParser] at hp; subst hp; exact h1)
    (fun p hp => by simp [NewParser] at hp; subst hp; exact h2)

theorem twoFieldHandler_WF : ∀ k x, WFR (twoFieldHandler k x).1 := by
  intro k x
  unfold twoFieldHandler
  by_cases h1 : k = "a"
  · simp only [h1, if_pos rfl]
    exact WFR_NewParser_fresh _ trivial (WFC.pstr _)
  · rw [if_neg h1]
    by_cases h2 : k = "b"
    · simp only [h2, if_pos rfl]
      exact WFR_NewParser_fresh _ trivial (WFC.pstr _)
    · rw [if_neg h2]
      exact WFR_NewParser_fresh _ rfl (WFC.pskip 0 le_rfl)

/-- C5 witness: the amended theorem applied to the two-token prefix
start_object, key a of a concrete parse. -/
theorem c5_stack_depth_witness :
    stackOwned [JSONParseFunc.parseStringC (.below [.fld "a"]),
        .objC (Val.vobj [("a", .vstr ""), ("b", .vstr "")]) twoFieldHandler false]
      = nesting [.start_object, .key "a"]
    ∧ (([JSONParseFunc.parseStringC (.below [.fld "a"]),
        .objC (Val.vobj [("a", .vstr ""), ("b", .vstr "")]) twoFieldHandler false].length : Int))
      ≤ nesting [.start_object, .key "a"] + 1
    ∧ (0 < nesting [.start_object, .key "a"] →
        [JSONParseFunc.parseStringC (.below [.fld "a"]),
          .objC (Val.vobj [("a", .vstr ""), ("b", .vstr "")]) twoFieldHandler false]
          ≠ ([] : List JSONParseFunc)) :=
  c5_stack_depth 2 (Val.vobj [("a", .vstr ""), ("b", .vstr "")]) twoFieldHandler
    [.start_object, .key "a"]
    ⟨[Val.vobj [("a", .vstr ""), ("b", .vstr "")]],
      [.parseStringC (.below [.fld "a"]),
        .objC (Val.vobj [("a", .vstr ""), ("b", .vstr "")]) twoFieldHandler false], none⟩
    twoFieldHandler_WF
    ⟨⟨[Val.vobj [("a", .vstr ""), ("b", .vstr "")]],
        [.objC (Val.vobj [("a", .vstr ""), ("b", .vstr "")]) twoFieldHandler false], none⟩,
      rfl,
      ⟨[Val.vobj [("a", .vstr ""), ("b", .vstr "")]],
        [.parseStringC (.below [.fld "a"]),
          .objC (Val.vobj [("a", .vstr ""), ("b", .vstr "")]) twoFieldHandler false], none⟩,
      rfl, rfl⟩
